import Mathlib

/-!
Verification development for the `graphix-og-generator` repository.

The repository builds *open graphs* (graphs with ordered input/output
boundary lists and per-node measurements) by iteratively composing minimal
building blocks (`BlockComposer.generate_og`), and provides two deprecated
constructors (`get_series_composition`, `get_grid_composition`).

The merge primitive `OpenGraph.compose` comes from the external `graphix`
library and is modelled here from the specification; everything else is a
direct shallow embedding of `graphix_og_generator.py` and `og_blocks.py`.
-/

namespace OGGen

/-- Measurement plane (graphix `Plane`): only the planes used by the blocks. -/
inductive Plane where
  | XY
  | YZ
  | XZ
deriving DecidableEq, Repr

/-- A measurement: an angle and a plane (graphix `Measurement`). -/
structure Measurement where
  angle : ℚ
  plane : Plane
deriving DecidableEq, Repr

/-- An open graph: an undirected graph over integer node identifiers given by
its node and edge lists (Python `og.inside`, a `networkx` graph), ordered
input and output boundary lists, and a measurement map (association list). -/
structure OpenGraph where
  nodes : List ℕ
  edges : List (ℕ × ℕ)
  inputs : List ℕ
  outputs : List ℕ
  measurements : List (ℕ × Measurement)
deriving DecidableEq, Repr

instance : Inhabited OpenGraph := ⟨⟨[], [], [], [], []⟩⟩

/-- Number of nodes of the underlying graph (Python `og.inside.order()`). -/
def OpenGraph.order (g : OpenGraph) : ℕ := g.nodes.length

/-- Maximum of a list of naturals (0 for the empty list). -/
def maxList (l : List ℕ) : ℕ := l.foldr max 0

/-- Lookup in an association list built in insertion order, with the Python
`dict` rule that a later binding for the same key overrides an earlier one. -/
def dictLookup : List (ℕ × ℕ) → ℕ → Option ℕ
  | [], _ => none
  | p :: m, k =>
    match dictLookup m k with
    | some t => some t
    | none => if p.1 = k then some p.2 else none

/-- First fresh identifier available when composing onto `og1` with the given
mapping: one past every identifier of `og1` and every mapping target. -/
def composeBase (og1 : OpenGraph) (mapping : List (ℕ × ℕ)) : ℕ :=
  max (maxList og1.nodes) (maxList (mapping.map Prod.snd)) + 1

/-- Relabelling of the second operand's nodes: a mapped node goes to its
mapping target, an unmapped node gets a fresh consecutive identifier
(`unmapped` lists the unmapped nodes in order). -/
def relabelFn (og1 : OpenGraph) (unmapped : List ℕ) (mapping : List (ℕ × ℕ))
    (v : ℕ) : ℕ :=
  match dictLookup mapping v with
  | some t => t
  | none => composeBase og1 mapping + unmapped.indexOf v

/-- Modelled from the spec: the Merge Primitive (`OpenGraph.compose` of the
external graphix library, spec §2 and §6) — disjoint union of the two open
graphs followed by identification of each mapped pair; the second operand's
identifiers are relabelled (mapped nodes to their targets, unmapped nodes to
fresh identifiers chosen past every identifier in use) so that the two
identifier spaces cannot collide.  A node of `og2` merged onto a node of
`og1` ceases to be a boundary input/output of the composed graph, and the
node of `og1` it lands on loses the opposite boundary status; measurements
travel with the relabelled nodes.  The library also returns the completed
relabelling, which every call site of this repository discards. -/
def OpenGraph.compose (og1 og2 : OpenGraph) (mapping : List (ℕ × ℕ)) :
    OpenGraph :=
  let unmapped := og2.nodes.filter (fun v => (dictLookup mapping v).isNone)
  let rl := relabelFn og1 unmapped mapping
  { nodes := og1.nodes ++ (og2.nodes.map rl).filter (fun t => decide (t ∉ og1.nodes))
    edges := og1.edges ++ og2.edges.map (fun e => (rl e.1, rl e.2))
    inputs :=
      og1.inputs.filter
          (fun i => decide (i ∉ (og2.outputs.filter
            (fun v => decide (rl v ∈ og1.nodes))).map rl))
        ++ (og2.inputs.filter (fun v => decide (rl v ∉ og1.nodes))).map rl
    outputs :=
      og1.outputs.filter
          (fun o => decide (o ∉ (og2.inputs.filter
            (fun v => decide (rl v ∈ og1.nodes))).map rl))
        ++ (og2.outputs.filter (fun v => decide (rl v ∉ og1.nodes))).map rl
    measurements :=
      og1.measurements ++ og2.measurements.map (fun p => (rl p.1, p.2)) }

/-- Unmapped-node list used by `OpenGraph.compose` for `og2` under `m`. -/
def composeUnmapped (og2 : OpenGraph) (m : List (ℕ × ℕ)) : List ℕ :=
  og2.nodes.filter (fun v => (dictLookup m v).isNone)

/-- Relabelling used by `OpenGraph.compose` for `og2` under `m`. -/
def composeRl (og1 og2 : OpenGraph) (m : List (ℕ × ℕ)) : ℕ → ℕ :=
  relabelFn og1 (composeUnmapped og2 m) m

/-- Block `og_blocks.get_og_1`: open graph with Pauli flow but no gflow,
two inputs and two outputs, 10 nodes. -/
def get_og_1 : OpenGraph :=
  { nodes := [0, 1, 2, 3, 4, 5, 6, 7, 8, 9]
    edges := [(0, 2), (1, 4), (2, 3), (3, 4), (2, 5), (3, 6), (4, 7), (5, 6),
      (6, 7), (5, 8), (7, 9)]
    inputs := [0, 1]
    outputs := [8, 9]
    measurements := (List.range 8).map (fun i => (i, ⟨0, Plane.XY⟩)) }

/-- Block `og_blocks.get_og_2`: open graph with Pauli flow,
two inputs and two outputs, 8 nodes. -/
def get_og_2 : OpenGraph :=
  { nodes := [0, 1, 2, 3, 4, 5, 6, 7]
    edges := [(0, 2), (1, 3), (2, 3), (2, 4), (3, 5), (4, 5), (4, 6), (5, 7)]
    inputs := [0, 1]
    outputs := [6, 7]
    measurements :=
      [(0, ⟨1/10, Plane.XY⟩), (1, ⟨1/10, Plane.XY⟩), (2, ⟨1/10, Plane.XY⟩),
       (3, ⟨1/10, Plane.XY⟩), (4, ⟨0, Plane.XY⟩), (5, ⟨1/2, Plane.YZ⟩)] }

/-- Modelled from the spec: the seeded pseudo-random generator (spec §5).
The Python implementation uses the process-wide `random` module; only seeded
determinism is specified, so a linear congruential step stands in for it. -/
def rngStep (s : ℕ) : ℕ := (6364136223846793005 * s + 1442695040888963407) % 2 ^ 64

/-- Draw a natural number below `n` (for `n > 0`), returning the new state. -/
def randBelow (s n : ℕ) : ℕ × ℕ := (rngStep s % n, rngStep s)

/-- Python `random.choice`: uniform selection of one list element. -/
def randChoice (s : ℕ) (l : List OpenGraph) : OpenGraph × ℕ :=
  let p := randBelow s l.length
  (l.getD p.1 default, p.2)

/-- Python `random.choices(l, k=k)`: `k` uniform draws with replacement. -/
def randChoices (s : ℕ) (l : List ℕ) : ℕ → List ℕ × ℕ
  | 0 => ([], s)
  | k + 1 =>
    let p := randBelow s l.length
    let rest := randChoices p.2 l k
    (l.getD p.1 0 :: rest.1, rest.2)

/-- Function `get_mapping` (inner function of `BlockComposer.generate_og`): clamp the
requested merge width to `min(len(og1.outputs), len(og2.inputs))` when it is
negative or too large, select that many inputs of `og2` and outputs of `og1`
(first ones when deterministic, uniform draws with replacement when random),
and zip them into the mapping `dict(zip(ins, outs))`. -/
def get_mapping (rnd : Bool) (merged_nodes_max : ℤ) (og1 og2 : OpenGraph)
    (s : ℕ) : List (ℕ × ℕ) × ℕ :=
  let min_io := min og1.outputs.length og2.inputs.length
  let m : ℕ :=
    if merged_nodes_max > (min_io : ℤ) ∨ merged_nodes_max < 0 then min_io
    else merged_nodes_max.toNat
  if rnd then
    let pi := randChoices s og2.inputs m
    let po := randChoices pi.2 og1.outputs m
    (pi.1.zip po.1, po.2)
  else
    ((og2.inputs.take m).zip (og1.outputs.take m), s)

/-- Result of running the composition loop of `BlockComposer.generate_og`:
the snapshots (`og_lst`), their node counts (`og_nodes`), the trace of
`(og1, og2)` operand pairs of each executed composition step, and the final
generator state. -/
structure StepResult where
  snaps : List OpenGraph
  counts : List ℕ
  trace : List (OpenGraph × OpenGraph)
  rng : ℕ
deriving Repr

/-- The loop `for n, og2 in enumerate(cycle(self.og_blocks), start=1)` of
`BlockComposer.generate_og`, symbolically: `cur` is the unconsumed rest of
the current pass of `itertools.cycle` over `blocks` (refilled from `blocks`
when exhausted), `n` the step counter, `fuel` the number of steps left before
the counter reaches `max(n_blocks)` and the loop breaks.  Each executed step
composes the running graph `og1` with the cycled block `og2` and snapshots
the result when `n` is a requested step count. -/
def genSteps (blocks : List OpenGraph) (S : List ℕ) (merged_nodes_max : ℤ)
    (rnd : Bool) : ℕ → ℕ → List OpenGraph → OpenGraph → ℕ → StepResult
  | 0, _, _, _, s => ⟨[], [], [], s⟩
  | fuel + 1, n, cur, og1, s =>
    let cur' := if cur.isEmpty then blocks else cur
    let og2 := cur'.headD default
    let p := get_mapping rnd merged_nodes_max og1 og2 s
    let og1' := og1.compose og2 p.1
    let rest := genSteps blocks S merged_nodes_max rnd fuel (n + 1) cur'.tail og1' p.2
    if n ∈ S then
      ⟨og1' :: rest.snaps, og1'.order :: rest.counts, (og1, og2) :: rest.trace,
        rest.rng⟩
    else
      ⟨rest.snaps, rest.counts, (og1, og2) :: rest.trace, rest.rng⟩

/-- Remove from `inputs` each element of `ins` in turn
(Python `for i in ins: og.inputs.remove(i)`). -/
def removeAll (inputs ins : List ℕ) : List ℕ := ins.foldl (fun l i => l.erase i) inputs

/-- The deterministic input-truncation step of `BlockComposer.generate_og`
(lines `ni_remove = max(0, len(og.inputs) - ni_max)`,
`ins = og.inputs[ni_remove:]`, `og.inputs.remove(i)`); only the input list is
touched — nodes, edges and measurements are untouched. -/
def truncate_og_det (og : OpenGraph) (ni_max : ℕ) : OpenGraph :=
  let ni_remove := og.inputs.length - ni_max
  let ins := og.inputs.drop ni_remove
  { og with inputs := removeAll og.inputs ins }

/-- The random input-truncation step (`ins = random.choices(og.inputs, k=ni_remove)`). -/
def truncate_og_rnd (og : OpenGraph) (ni_max : ℕ) (s : ℕ) : OpenGraph × ℕ :=
  let ni_remove := og.inputs.length - ni_max
  let p := randChoices s og.inputs ni_remove
  ({ og with inputs := removeAll og.inputs p.1 }, p.2)

/-- The `ni_max_vals` post-processing loop of `BlockComposer.generate_og`:
truncate each stored snapshot against its positional cap (`zip` stops at the
shorter list; snapshots beyond the caps are left as they are). -/
def truncateAll (rnd : Bool) : List OpenGraph → List ℕ → ℕ → List OpenGraph
  | ogs, [], _ => ogs
  | [], _, _ => []
  | og :: ogs, c :: cs, s =>
    if rnd then
      let p := truncate_og_rnd og c s
      p.1 :: truncateAll rnd ogs cs p.2
    else
      truncate_og_det og c :: truncateAll rnd ogs cs s

/-- The full run of `BlockComposer.generate_og` up to the end of the
composition loop (before input truncation), keeping the step trace.
`og_blocks` is the composer's block pool; in deterministic mode the running
graph starts at `og_blocks[0]`, in random mode at a random block. -/
def BlockComposer.generate_og_run (og_blocks : List OpenGraph)
    (n_blocks : List ℕ) (merged_nodes_max : ℤ) (rnd : Bool) (seed : ℕ) :
    StepResult :=
  let n_max := maxList n_blocks
  if rnd then
    let s0 := rngStep seed
    let p1 := randChoice s0 og_blocks
    genSteps og_blocks n_blocks merged_nodes_max true (n_max - 1) 1 og_blocks p1.1 p1.2
  else
    genSteps og_blocks n_blocks merged_nodes_max false (n_max - 1) 1 og_blocks
      (og_blocks.headD default) 0

/-- Method `BlockComposer.generate_og`: run the composition loop, then, when
`ni_max_vals` is supplied (non-empty — Python `if ni_max_vals:`), truncate the
inputs of the stored snapshots; return the snapshots and their node counts
(counts recorded at snapshot time). -/
def BlockComposer.generate_og (og_blocks : List OpenGraph) (n_blocks : List ℕ)
    (merged_nodes_max : ℤ) (ni_max_vals : List ℕ) (rnd : Bool) (seed : ℕ) :
    List OpenGraph × List ℕ :=
  let r := BlockComposer.generate_og_run og_blocks n_blocks merged_nodes_max rnd seed
  let lst :=
    if ni_max_vals.isEmpty then r.snaps else truncateAll rnd r.snaps ni_max_vals r.rng
  (lst, r.counts)

/-- One iteration of the `get_series_composition` loop: compose the running
graph `og` with the block copy `og_aux`, identifying the copy's inputs with
the running graph's outputs (`mapping = dict(zip(og_aux.inputs, og.outputs))`). -/
def seriesStep (og_aux og : OpenGraph) : OpenGraph :=
  og.compose og_aux (og_aux.inputs.zip og.outputs)

/-- The `for _ in range(n)` loop of `get_series_composition`. -/
def seriesGo (og_aux : OpenGraph) : ℕ → OpenGraph → OpenGraph
  | 0, og => og
  | k + 1, og => seriesGo og_aux k (seriesStep og_aux og)

/-- Function `get_series_composition(og, n)`: chain `n` copies of the minimal block
`og` (`og_aux = deepcopy(og)` is the fixed copy composed at every step). -/
def get_series_composition (og : OpenGraph) (n : ℕ) : OpenGraph :=
  seriesGo og n og

/-- The successive values of `mapping` computed by the `get_series_composition`
loop, in execution order. -/
def seriesMappingsGo (og_aux : OpenGraph) : ℕ → OpenGraph → List (List (ℕ × ℕ))
  | 0, _ => []
  | k + 1, og =>
    og_aux.inputs.zip og.outputs :: seriesMappingsGo og_aux k (seriesStep og_aux og)

/-- The mappings passed to the merge primitive by `get_series_composition(og, n)`. -/
def seriesMappings (og : OpenGraph) (n : ℕ) : List (List (ℕ × ℕ)) :=
  seriesMappingsGo og n og

/-- The parallel-composition mapping of `get_layers` (inner function of
`get_grid_composition`): every boundary node of the block copy is relabelled
to a fresh identifier starting at `shift`
(`{node: i for i, node in enumerate(og_aux.inputs + og_aux.outputs, start=shift)}`). -/
def layerMapping (og_aux : OpenGraph) (shift : ℕ) : List (ℕ × ℕ) :=
  (og_aux.inputs ++ og_aux.outputs).enum.map (fun p => (p.2, shift + p.1))

/-- The `for n in range(1, n_rows)` loop of `get_layers`: compose `og0` with
the block copy at every iteration, and `og1` at every iteration but the last
(`n < n_rows - 1`), both with the mapping derived from `og0`'s node count. -/
def getLayersGo (og_aux : OpenGraph) : ℕ → OpenGraph → OpenGraph → OpenGraph × OpenGraph
  | 0, og0, og1 => (og0, og1)
  | fuel + 1, og0, og1 =>
    let shift := og0.order
    let m := layerMapping og_aux shift
    getLayersGo og_aux fuel (og0.compose og_aux m)
      (if 0 < fuel then og1.compose og_aux m else og1)

/-- Function `get_layers(n_rows)` of `get_grid_composition`: the layer-0 template of
`n_rows` parallel blocks and the layer-1 template with one block fewer
(both a single block when `n_rows = 1`). -/
def get_layers (og : OpenGraph) (n_rows : ℕ) : OpenGraph × OpenGraph :=
  getLayersGo og (n_rows - 1) og og

/-- The output reordering of `add_l0` when the running graph has more than 3
outputs: move the second output to the end
(`outputs.append(outputs[1]); outputs.remove(outputs[1])`). -/
def moveSecondToEnd (l : List ℕ) : List ℕ :=
  let v := l.getD 1 0
  (l ++ [v]).erase v

/-- Function `add_l0` of `get_grid_composition`: compose the layer-0 template onto the
running graph, its inputs identified with the running outputs — all but the
last when there are exactly 3, otherwise all of them with the second moved to
the end. -/
def add_l0 (l0 og : OpenGraph) : OpenGraph :=
  let outs := if og.outputs.length = 3 then og.outputs.dropLast
    else moveSecondToEnd og.outputs
  og.compose l0 (l0.inputs.zip outs)

/-- Function `add_l1` of `get_grid_composition`: compose the layer-1 template onto the
running graph, its inputs identified with the running outputs stripped of the
first one, and also of the last when there are more than 3
(`og.outputs[1:-1] if len(og.outputs) > 3 else og.outputs[1:]`). -/
def add_l1 (l1 og : OpenGraph) : OpenGraph :=
  let outs := if og.outputs.length > 3 then (og.outputs.drop 1).dropLast
    else og.outputs.drop 1
  og.compose l1 (l1.inputs.zip outs)

/-- The `for i, add_layer in enumerate(cycle([add_l1, add_l0]))` loop of
`get_grid_composition`: perform `k` layer additions, starting with `add_l1`
and alternating (`b` is true when the next addition uses the layer-1 template). -/
def gridLoop (l0 l1 : OpenGraph) : ℕ → Bool → OpenGraph → OpenGraph
  | 0, _, og => og
  | k + 1, b, og =>
    gridLoop l0 l1 k (!b) (if b then add_l1 l1 og else add_l0 l0 og)

/-- The grid construction past its argument checks: build the two layer
templates, start from the layer-0 template, and add `n_layers - 1`
alternating layers. -/
def gridCore (og : OpenGraph) (n_rows n_layers : ℕ) : OpenGraph :=
  let p := get_layers og n_rows
  gridLoop p.1 p.2 (n_layers - 1) true p.1

/-- Error message of the `n_layers` check of `get_grid_composition`. -/
def layersErrMsg : String := "Number of layers  must be larger than 1"

/-- Error message of the `n_rows` check of `get_grid_composition`. -/
def rowsErrMsg : String := "Number of rows  must be larger than 1"

/-- Function `get_grid_composition(og, n_rows, n_layers)`: raise `ValueError` when
`n_layers < 1` (checked first) or `n_rows < 1`, before any composition is
performed; otherwise build the brick-wall grid. -/
def get_grid_composition (og : OpenGraph) (n_rows n_layers : ℤ) :
    Except String OpenGraph :=
  if n_layers < 1 then Except.error layersErrMsg
  else if n_rows < 1 then Except.error rowsErrMsg
  else Except.ok (gridCore og n_rows.toNat n_layers.toNat)

/-- Well-formedness invariant carried through the parallel layer
construction: duplicate-free node list, identifiers below a bound,
duplicate-free disjoint boundary lists contained in the node list. -/
def WfParallel (g : OpenGraph) (B : ℕ) : Prop :=
  g.nodes.Nodup ∧ (∀ v ∈ g.nodes, v < B)
  ∧ g.inputs.Nodup ∧ g.outputs.Nodup
  ∧ (∀ v ∈ g.outputs, v ∉ g.inputs)
  ∧ (∀ v ∈ g.inputs, v ∈ g.nodes) ∧ (∀ v ∈ g.outputs, v ∈ g.nodes)

/-- Invariant of the running graph in the layer-addition loop of the grid
construction: both boundaries have width `W`, and the outputs are
duplicate-free nodes of the graph. -/
def WfRun (g : OpenGraph) (W : ℕ) : Prop :=
  g.inputs.length = W ∧ g.outputs.length = W ∧ g.outputs.Nodup
  ∧ ∀ o ∈ g.outputs, o ∈ g.nodes

/-- A three-input open graph used to exhibit the direction of the
deterministic input truncation. -/
def og_three_inputs : OpenGraph :=
  { nodes := [0, 1, 2, 3]
    edges := [(0, 3), (1, 3), (2, 3)]
    inputs := [0, 1, 2]
    outputs := [3]
    measurements := [(0, ⟨0, Plane.XY⟩), (1, ⟨0, Plane.XY⟩), (2, ⟨0, Plane.XY⟩)] }

/-! ### Sanity checks of the embedding against the repository's test suite -/

example : get_og_1.order = 10 := by rfl

example : get_og_2.order = 8 := by rfl

example : (get_og_1.compose get_og_1 []).order = 20 := by rfl

example :
    (get_og_1.compose get_og_1
      (get_og_1.inputs.zip get_og_1.outputs)).order = 18 := by rfl

example :
    (BlockComposer.generate_og [get_og_1, get_og_2] [1, 3, 5] 0 [] false 42).2
      = [20, 38] := by rfl

example :
    (BlockComposer.generate_og [get_og_1, get_og_2] [1, 3, 5] 1 [] false 42).2
      = [19, 35] := by rfl

/-! ### Helper lemmas about `maxList`, `dictLookup` and `relabelFn` -/

lemma maxList_cons (a : ℕ) (t : List ℕ) : maxList (a :: t) = max a (maxList t) := rfl

lemma mem_le_maxList {l : List ℕ} {x : ℕ} (hx : x ∈ l) : x ≤ maxList l := by
  induction l with
  | nil => cases hx
  | cons a t ih =>
    rw [maxList_cons]
    rcases List.mem_cons.mp hx with h | h
    · exact h ▸ le_max_left _ _
    · exact le_trans (ih h) (le_max_right _ _)

lemma maxList_le {l : List ℕ} {b : ℕ} (h : ∀ x ∈ l, x ≤ b) : maxList l ≤ b := by
  induction l with
  | nil => exact Nat.zero_le b
  | cons a t ih =>
    rw [maxList_cons, max_le_iff]
    exact ⟨h a (List.mem_cons_self a t), ih fun x hx => h x (List.mem_cons_of_mem a hx)⟩

lemma dictLookup_eq_none {m : List (ℕ × ℕ)} {v : ℕ} (h : ∀ p ∈ m, p.1 ≠ v) :
    dictLookup m v = none := by
  induction m with
  | nil => rfl
  | cons p t ih =>
    have ht : dictLookup t v = none := ih fun q hq => h q (List.mem_cons_of_mem p hq)
    simp only [dictLookup, ht, if_neg (h p (List.mem_cons_self p t))]

lemma dictLookup_zip_none {ks vs : List ℕ} {v : ℕ} (h : v ∉ ks) :
    dictLookup (ks.zip vs) v = none :=
  dictLookup_eq_none fun p hp he => h (he ▸ (List.of_mem_zip hp).1)

lemma dictLookup_cons_ne {p : ℕ × ℕ} {m : List (ℕ × ℕ)} {v : ℕ} (h : p.1 ≠ v) :
    dictLookup (p :: m) v = dictLookup m v := by
  cases hm : dictLookup m v <;> simp only [dictLookup, hm, if_neg h]

lemma relabel_of_lookup_some {og1 : OpenGraph} {u : List ℕ} {m : List (ℕ × ℕ)}
    {v t : ℕ} (h : dictLookup m v = some t) : relabelFn og1 u m v = t := by
  simp only [relabelFn, h]

lemma relabel_of_lookup_none {og1 : OpenGraph} {u : List ℕ} {m : List (ℕ × ℕ)}
    {v : ℕ} (h : dictLookup m v = none) :
    relabelFn og1 u m v = composeBase og1 m + u.indexOf v := by
  simp only [relabelFn, h]

lemma maxList_lt_composeBase (og1 : OpenGraph) (m : List (ℕ × ℕ)) :
    maxList og1.nodes < composeBase og1 m :=
  Nat.lt_succ_of_le (le_max_left _ _)

lemma relabel_not_mem_of_none {og1 : OpenGraph} {u : List ℕ} {m : List (ℕ × ℕ)}
    {v : ℕ} (h : dictLookup m v = none) : relabelFn og1 u m v ∉ og1.nodes := by
  intro hmem
  have h1 : relabelFn og1 u m v ≤ maxList og1.nodes := mem_le_maxList hmem
  have h2 : composeBase og1 m ≤ relabelFn og1 u m v := by
    rw [relabel_of_lookup_none h]; exact Nat.le_add_right _ _
  have h3 := maxList_lt_composeBase og1 m
  omega

lemma compose_nodes (og1 og2 : OpenGraph) (m : List (ℕ × ℕ)) :
    (og1.compose og2 m).nodes
      = og1.nodes ++ (og2.nodes.map (composeRl og1 og2 m)).filter
          (fun t => decide (t ∉ og1.nodes)) := rfl

lemma compose_inputs (og1 og2 : OpenGraph) (m : List (ℕ × ℕ)) :
    (og1.compose og2 m).inputs
      = og1.inputs.filter
          (fun i => decide (i ∉ (og2.outputs.filter
            (fun v => decide (composeRl og1 og2 m v ∈ og1.nodes))).map
              (composeRl og1 og2 m)))
        ++ (og2.inputs.filter
            (fun v => decide (composeRl og1 og2 m v ∉ og1.nodes))).map
              (composeRl og1 og2 m) := rfl

lemma compose_outputs (og1 og2 : OpenGraph) (m : List (ℕ × ℕ)) :
    (og1.compose og2 m).outputs
      = og1.outputs.filter
          (fun o => decide (o ∉ (og2.inputs.filter
            (fun v => decide (composeRl og1 og2 m v ∈ og1.nodes))).map
              (composeRl og1 og2 m)))
        ++ (og2.outputs.filter
            (fun v => decide (composeRl og1 og2 m v ∉ og1.nodes))).map
              (composeRl og1 og2 m) := rfl

/-! ### Input truncation (claims C1, C4) -/

/-- C1: the claim says truncating with a cap at least the current input count
is a no-op; on the code, `ins = og.inputs[ni_remove:]` with `ni_remove = 0`
is the whole input list, so the deterministic truncation instead removes
every input (while nodes, edges and measurements are indeed untouched).
Exhibited on `get_og_1` (2 inputs) with cap 2. -/
theorem truncate_cap_ge_empties_inputs :
    get_og_1.inputs = [0, 1]
    ∧ truncate_og_det get_og_1 2 ≠ get_og_1
    ∧ (truncate_og_det get_og_1 2).inputs = []
    ∧ (truncate_og_det get_og_1 2).nodes = get_og_1.nodes
    ∧ (truncate_og_det get_og_1 2).edges = get_og_1.edges
    ∧ (truncate_og_det get_og_1 2).measurements = get_og_1.measurements :=
  ⟨rfl, fun h => absurd (congrArg OpenGraph.inputs h) (by decide), rfl, rfl, rfl, rfl⟩

/-- C4: the claim (and the docstring) says deterministic truncation removes
the first `len(inputs) - cap` inputs and keeps the tail, leaving exactly
`cap` inputs; the code removes the tail `og.inputs[ni_remove:]` instead,
keeping the first `len(inputs) - cap` inputs.  On a graph with inputs
`[0, 1, 2]` and cap 1 the code leaves `[0, 1]` (2 inputs, not 1) instead of
`[2]`; nodes, edges and measurements are untouched as claimed. -/
theorem truncate_cap_lt_keeps_front :
    og_three_inputs.inputs = [0, 1, 2]
    ∧ (truncate_og_det og_three_inputs 1).inputs = [0, 1]
    ∧ (truncate_og_det og_three_inputs 1).inputs.length ≠ 1
    ∧ (truncate_og_det og_three_inputs 1).nodes = og_three_inputs.nodes
    ∧ (truncate_og_det og_three_inputs 1).edges = og_three_inputs.edges
    ∧ (truncate_og_det og_three_inputs 1).measurements
        = og_three_inputs.measurements :=
  ⟨rfl, rfl, by decide, rfl, rfl, rfl⟩

/-! ### Scenario node counts (claim C3) -/

/-- C3 counterexample: with the pool `[get_og_1, get_og_2]` and
`generate_og(n_blocks=[1,3,5], merged_nodes_max=0, rnd=False)`, the returned
node-count list is not `[20, 38, 56]` (the snapshot for 5 is never taken). -/
theorem generate_og_parallel_counts_ne :
    (BlockComposer.generate_og [get_og_1, get_og_2] [1, 3, 5] 0 [] false 42).2
      ≠ [20, 38, 56] := by
  intro hc
  have h : (BlockComposer.generate_og [get_og_1, get_og_2] [1, 3, 5] 0 [] false 42).2
      = [20, 38] := by rfl
  rw [h] at hc
  exact absurd hc (by decide)

/-- C3 (amended): the call returns the node counts `[20, 38]` — the loop
breaks before the step whose counter equals `max(n_blocks) = 5`, so the
snapshot with counter 5 is absent and only the counters 1 and 3 appear. -/
theorem generate_og_parallel_counts :
    (BlockComposer.generate_og [get_og_1, get_og_2] [1, 3, 5] 0 [] false 42).2
      = [20, 38] := by rfl

/-! ### Series composition (claims C5, C8) -/

/-- C5 counterexample: in `get_series_composition(get_og_1, 2)`, the mapping
passed to the merge primitive at the second iteration is not
`zip(copy.inputs, block.outputs)` for the original block (the code zips the
copy's inputs with the running graph's outputs, which at that point are the
fresh relabels of the first copy's outputs). -/
theorem series_mapping_second_step_ne :
    (seriesMappings get_og_1 2).getD 1 [] ≠ get_og_1.inputs.zip get_og_1.outputs := by
  decide

lemma seriesMappingsGo_getD (a : OpenGraph) :
    ∀ (k n : ℕ) (og : OpenGraph), k < n →
      (seriesMappingsGo a n og).getD k [] = a.inputs.zip (seriesGo a k og).outputs := by
  intro k
  induction k with
  | zero =>
    intro n og h
    cases n with
    | zero => omega
    | succ m => rfl
  | succ k ih =>
    intro n og h
    cases n with
    | zero => omega
    | succ m =>
      have h1 : seriesMappingsGo a (m + 1) og
          = a.inputs.zip og.outputs :: seriesMappingsGo a m (seriesStep a og) := rfl
      rw [h1, List.getD_cons_succ, ih m (seriesStep a og) (by omega)]
      rfl

/-- C5 (amended): in `get_series_composition(og, n)` the mapping of iteration
`k + 1` is `zip(copy.inputs, running.outputs)` where `running` is the graph
composed so far (`seriesGo og k og`), i.e. the copy's input boundary is
identified with the running graph's outputs, not with the original block's
outputs. -/
theorem series_mapping_uses_running_outputs (og : OpenGraph) (n k : ℕ)
    (h : k < n) :
    (seriesMappings og n).getD k [] = og.inputs.zip (seriesGo og k og).outputs :=
  seriesMappingsGo_getD og k n og h

/-- Witness for `series_mapping_uses_running_outputs` at `og = get_og_1`,
`n = 2`, `k = 1`. -/
theorem series_mapping_uses_running_outputs_witness :
    1 < 2
    ∧ (seriesMappings get_og_1 2).getD 1 []
        = get_og_1.inputs.zip (seriesGo get_og_1 1 get_og_1).outputs :=
  ⟨by decide, series_mapping_uses_running_outputs get_og_1 2 1 (by decide)⟩

/-- C8: `get_series_composition(og, 0)` returns the original block itself —
identical in nodes, edges, inputs, outputs and measurements (the loop body
never runs). -/
theorem series_zero_identity (og : OpenGraph) : get_series_composition og 0 = og := rfl

/-! ### Grid argument validation (claim C7) -/

/-- C7: `get_grid_composition` fails if and only if `n_rows < 1` or
`n_layers < 1`; the check happens before any composition (otherwise the
total grid construction `gridCore` is returned), and the error message names
the violated bound (`n_layers` is checked first). -/
theorem grid_invalid_argument (og : OpenGraph) (r l : ℤ) :
    ((∃ e, get_grid_composition og r l = Except.error e) ↔ r < 1 ∨ l < 1)
    ∧ (l < 1 → get_grid_composition og r l = Except.error layersErrMsg)
    ∧ (1 ≤ l → r < 1 → get_grid_composition og r l = Except.error rowsErrMsg)
    ∧ (1 ≤ l → 1 ≤ r →
        get_grid_composition og r l = Except.ok (gridCore og r.toNat l.toNat)) := by
  unfold get_grid_composition
  split_ifs with h1 h2
  · exact ⟨⟨fun _ => Or.inr h1, fun _ => ⟨layersErrMsg, rfl⟩⟩, fun _ => rfl,
      fun hl2 => absurd h1 (by omega), fun hl2 _ => absurd h1 (by omega)⟩
  · exact ⟨⟨fun _ => Or.inl h2, fun _ => ⟨rowsErrMsg, rfl⟩⟩,
      fun hl => absurd hl h1, fun _ _ => rfl, fun _ hr => absurd h2 (by omega)⟩
  · refine ⟨⟨?_, ?_⟩, fun hl => absurd hl h1, fun _ hr => absurd hr h2,
      fun _ _ => rfl⟩
    · rintro ⟨e, he⟩
      exact he.elim
    · rintro (hr | hl)
      · exact absurd hr h2
      · exact absurd hl h1

/-- Witness for `grid_invalid_argument`: the layers message at
`(rows, layers) = (1, 0)` and the rows message at `(0, 1)`. -/
theorem grid_invalid_argument_witness :
    get_grid_composition get_og_1 1 0 = Except.error layersErrMsg
    ∧ get_grid_composition get_og_1 0 1 = Except.error rowsErrMsg :=
  ⟨(grid_invalid_argument get_og_1 1 0).2.1 (by decide),
   (grid_invalid_argument get_og_1 0 1).2.2.1 (by decide) (by decide)⟩

/-! ### Determinism (claim C9) -/

/-- C9: `BlockComposer.generate_og` is deterministic — two calls with
identical arguments (pool, step counts, merge width, input caps, mode and
seed) return the same output, and in deterministic mode (`rnd = false`) the
output does not depend on the seed at all. -/
theorem generate_og_deterministic (blocks : List OpenGraph) (nb : List ℕ)
    (m : ℤ) (ni : List ℕ) (rnd : Bool) (seed : ℕ) :
    BlockComposer.generate_og blocks nb m ni rnd seed
        = BlockComposer.generate_og blocks nb m ni rnd seed
    ∧ ∀ s₁ s₂ : ℕ,
        BlockComposer.generate_og blocks nb m ni false s₁
          = BlockComposer.generate_og blocks nb m ni false s₂ := by
  refine ⟨rfl, fun s₁ s₂ => ?_⟩
  unfold BlockComposer.generate_og BlockComposer.generate_og_run
  simp

/-! ### Snapshot counts and cyclic selection (claims C2, C10) -/

lemma maxList_mem {l : List ℕ} (h : l ≠ []) : maxList l ∈ l := by
  induction l with
  | nil => exact absurd rfl h
  | cons a t ih =>
    cases t with
    | nil => simp [maxList]
    | cons b u =>
      rw [maxList_cons]
      rcases max_cases a (maxList (b :: u)) with ⟨h1, _⟩ | ⟨h1, _⟩
      · rw [h1]; exact List.mem_cons_self _ _
      · rw [h1]; exact List.mem_cons_of_mem _ (ih (by simp))

lemma genSteps_lengths (blocks : List OpenGraph) (S : List ℕ) (m : ℤ)
    (rnd : Bool) :
    ∀ (fuel n : ℕ) (cur : List OpenGraph) (og1 : OpenGraph) (s : ℕ),
      (genSteps blocks S m rnd fuel n cur og1 s).snaps.length
          = ((List.range' n fuel).filter (fun i => decide (i ∈ S))).length
      ∧ (genSteps blocks S m rnd fuel n cur og1 s).counts.length
          = ((List.range' n fuel).filter (fun i => decide (i ∈ S))).length
      ∧ (genSteps blocks S m rnd fuel n cur og1 s).trace.length = fuel := by
  intro fuel
  induction fuel with
  | zero => intro n cur og1 s; simp [genSteps]
  | succ f ih =>
    intro n cur og1 s
    rw [List.range'_succ]
    obtain ⟨h1, h2, h3⟩ := ih (n + 1) (if cur.isEmpty then blocks else cur).tail
      ((og1.compose ((if cur.isEmpty then blocks else cur).headD default)
        (get_mapping rnd m og1 ((if cur.isEmpty then blocks else cur).headD default) s).1))
      ((get_mapping rnd m og1 ((if cur.isEmpty then blocks else cur).headD default) s).2)
    by_cases hn : n ∈ S
    · rw [List.filter_cons_of_pos (by simpa using hn)]
      simp only [genSteps, if_pos hn]
      exact ⟨by simpa using h1, by simpa using h2, by simpa using h3⟩
    · rw [List.filter_cons_of_neg (by simpa using hn)]
      simp only [genSteps, if_neg hn]
      exact ⟨h1, h2, by simpa using h3⟩

lemma count_range'_filter (S : List ℕ) (hS : S ≠ []) (hpos : ∀ x ∈ S, 1 ≤ x) :
    ((List.range' 1 (maxList S - 1)).filter (fun i => decide (i ∈ S))).length
      = S.toFinset.card - 1 := by
  have hM_mem : maxList S ∈ S := maxList_mem hS
  have hM_pos : 1 ≤ maxList S := hpos _ hM_mem
  have hnd : ((List.range' 1 (maxList S - 1)).filter (fun i => decide (i ∈ S))).Nodup :=
    (List.nodup_range' 1 (maxList S - 1)).filter _
  have hset : ((List.range' 1 (maxList S - 1)).filter
      (fun i => decide (i ∈ S))).toFinset = S.toFinset.erase (maxList S) := by
    ext a
    simp only [List.mem_toFinset, List.mem_filter, List.mem_range'_1,
      decide_eq_true_eq, Finset.mem_erase]
    constructor
    · rintro ⟨⟨hge, hlt⟩, ha⟩
      exact ⟨by omega, ha⟩
    · rintro ⟨hne, ha⟩
      have hle := mem_le_maxList ha
      have hge := hpos a ha
      exact ⟨⟨hge, by omega⟩, ha⟩
  have hcard := List.toFinset_card_of_nodup hnd
  rw [hset] at hcard
  rw [← hcard, Finset.card_erase_of_mem (List.mem_toFinset.mpr hM_mem)]

lemma truncateAll_length (rnd : Bool) :
    ∀ (ogs : List OpenGraph) (cs : List ℕ) (s : ℕ),
      (truncateAll rnd ogs cs s).length = ogs.length := by
  intro ogs
  induction ogs with
  | nil => intro cs s; cases cs <;> rfl
  | cons og t ih =>
    intro cs s
    cases cs with
    | nil => rfl
    | cons c cs' =>
      by_cases hr : rnd = true
      · simp only [truncateAll, if_pos hr, List.length_cons, ih]
      · simp only [truncateAll, if_neg hr, List.length_cons, ih]

lemma generate_og_run_false (blocks : List OpenGraph) (nb : List ℕ) (m : ℤ)
    (seed : ℕ) :
    BlockComposer.generate_og_run blocks nb m false seed
      = genSteps blocks nb m false (maxList nb - 1) 1 blocks
          (blocks.headD default) 0 := rfl

lemma generate_og_run_true (blocks : List OpenGraph) (nb : List ℕ) (m : ℤ)
    (seed : ℕ) :
    BlockComposer.generate_og_run blocks nb m true seed
      = genSteps blocks nb m true (maxList nb - 1) 1 blocks
          (randChoice (rngStep seed) blocks).1 (randChoice (rngStep seed) blocks).2 := rfl

lemma generate_og_run_lengths (blocks : List OpenGraph) (nb : List ℕ) (m : ℤ)
    (rnd : Bool) (seed : ℕ) :
    (BlockComposer.generate_og_run blocks nb m rnd seed).snaps.length
        = ((List.range' 1 (maxList nb - 1)).filter (fun i => decide (i ∈ nb))).length
    ∧ (BlockComposer.generate_og_run blocks nb m rnd seed).counts.length
        = ((List.range' 1 (maxList nb - 1)).filter (fun i => decide (i ∈ nb))).length
    ∧ (BlockComposer.generate_og_run blocks nb m rnd seed).trace.length
        = maxList nb - 1 := by
  cases rnd with
  | false => rw [generate_og_run_false]; exact genSteps_lengths blocks nb m false _ 1 _ _ _
  | true => rw [generate_og_run_true]; exact genSteps_lengths blocks nb m true _ 1 _ _ _

/-- C2: for a call with non-empty `n_blocks` of positive integers, the loop
executes exactly `max(n_blocks) - 1` composition steps (it breaks before the
step whose counter equals the maximum, so that snapshot is never appended),
and both returned lists have length `|set(n_blocks)| - 1`; no error results
from the missing snapshot (the function is total on such inputs). -/
theorem generate_og_snapshot_lengths (blocks : List OpenGraph) (nb : List ℕ)
    (m : ℤ) (ni : List ℕ) (rnd : Bool) (seed : ℕ)
    (hb : blocks ≠ []) (hnb : nb ≠ []) (hpos : ∀ x ∈ nb, 1 ≤ x) :
    (BlockComposer.generate_og_run blocks nb m rnd seed).trace.length
        = maxList nb - 1
    ∧ (BlockComposer.generate_og blocks nb m ni rnd seed).1.length
        = nb.toFinset.card - 1
    ∧ (BlockComposer.generate_og blocks nb m ni rnd seed).2.length
        = nb.toFinset.card - 1 := by
  obtain ⟨h1, h2, h3⟩ := generate_og_run_lengths blocks nb m rnd seed
  have hc := count_range'_filter nb hnb hpos
  refine ⟨h3, ?_, ?_⟩
  · show (if ni.isEmpty then _ else truncateAll rnd _ ni _).length = _
    by_cases hni : ni.isEmpty
    · rw [if_pos hni, h1, hc]
    · rw [if_neg hni, truncateAll_length, h1, hc]
  · show (BlockComposer.generate_og_run blocks nb m rnd seed).counts.length = _
    rw [h2, hc]

/-- Witness for `generate_og_snapshot_lengths` at the pool
`[get_og_1, get_og_2]` with `n_blocks = [1, 3, 5]`. -/
theorem generate_og_snapshot_lengths_witness :
    (BlockComposer.generate_og_run [get_og_1, get_og_2] [1, 3, 5] 0 false 42).trace.length = 4
    ∧ (BlockComposer.generate_og [get_og_1, get_og_2] [1, 3, 5] 0 [] false 42).1.length = 2
    ∧ (BlockComposer.generate_og [get_og_1, get_og_2] [1, 3, 5] 0 [] false 42).2.length = 2 :=
  generate_og_snapshot_lengths [get_og_1, get_og_2] [1, 3, 5] 0 [] false 42
    (by decide) (by decide) (by decide)

lemma genSteps_trace (blocks : List OpenGraph) (S : List ℕ) (m : ℤ) (rnd : Bool)
    (fuel n : ℕ) (cur : List OpenGraph) (og1 : OpenGraph) (s : ℕ) :
    (genSteps blocks S m rnd (fuel + 1) n cur og1 s).trace
      = (og1, (if cur.isEmpty then blocks else cur).headD default)
        :: (genSteps blocks S m rnd fuel (n + 1)
              (if cur.isEmpty then blocks else cur).tail
              (og1.compose ((if cur.isEmpty then blocks else cur).headD default)
                (get_mapping rnd m og1
                  ((if cur.isEmpty then blocks else cur).headD default) s).1)
              (get_mapping rnd m og1
                ((if cur.isEmpty then blocks else cur).headD default) s).2).trace := by
  by_cases hn : n ∈ S
  · simp only [genSteps, if_pos hn]
  · simp only [genSteps, if_neg hn]

lemma genSteps_trace_getD (blocks : List OpenGraph) (S : List ℕ) (m : ℤ)
    (rnd : Bool) (hb : blocks ≠ []) :
    ∀ (fuel n : ℕ) (cur : List OpenGraph) (og1 : OpenGraph) (s : ℕ) (j : ℕ),
      j ≤ blocks.length → cur = blocks.drop j →
      ∀ k : ℕ, k < fuel →
        ((genSteps blocks S m rnd fuel n cur og1 s).trace.getD k
            (default, default)).2
          = blocks.getD ((j + k) % blocks.length) default := by
  intro fuel
  induction fuel with
  | zero =>
    intro n cur og1 s j hj hcur k hk
    omega
  | succ f ih =>
    intro n cur og1 s j hj hcur k hk
    have hlen : 1 ≤ blocks.length := by
      cases blocks with
      | nil => exact absurd rfl hb
      | cons a t => simp
    rw [genSteps_trace]
    by_cases hj' : j < blocks.length
    · have hne : ¬cur.isEmpty = true := by
        rw [hcur, List.isEmpty_iff, List.drop_eq_nil_iff]
        omega
      have hcur' : (if cur.isEmpty then blocks else cur) = blocks.drop j := by
        rw [if_neg hne, hcur]
      rcases k with _ | k
      · rw [List.getD_cons_zero]
        rw [hcur', List.headD_eq_head?, List.head?_drop,
          List.getD_eq_getElem?_getD, Nat.add_zero, Nat.mod_eq_of_lt hj']
      · rw [List.getD_cons_succ]
        have hcur'' : (if cur.isEmpty then blocks else cur).tail
            = blocks.drop (j + 1) := by rw [hcur', List.tail_drop]
        have harith : j + (k + 1) = j + 1 + k := by omega
        rw [harith]
        exact ih (n + 1) _ _ _ (j + 1) (by omega) hcur'' k (by omega)
    · have hj'' : j = blocks.length := by omega
      have hemp : cur.isEmpty = true := by
        rw [hcur, List.isEmpty_iff, List.drop_eq_nil_iff]
        omega
      have hcur' : (if cur.isEmpty then blocks else cur) = blocks := if_pos hemp
      rcases k with _ | k
      · rw [List.getD_cons_zero]
        rw [hcur', List.headD_eq_head?, List.head?_eq_getElem?,
          List.getD_eq_getElem?_getD, hj'', Nat.add_zero, Nat.mod_self]
      · rw [List.getD_cons_succ]
        have hcur'' : (if cur.isEmpty then blocks else cur).tail
            = blocks.drop 1 := by
          rw [hcur']
          cases blocks with
          | nil => rfl
          | cons a t => rfl
        rw [hj'']
        have harith : blocks.length + (k + 1) = blocks.length + (1 + k) := by omega
        rw [harith, Nat.add_mod_left]
        have h1k : (1 + k) % blocks.length = (1 + k) % blocks.length := rfl
        exact ih (n + 1) _ _ _ 1 (by omega) hcur'' k (by omega)

/-- C10: in deterministic mode the running graph starts at `og_blocks[0]`
and the cyclic selection also starts at `og_blocks[0]`: the block composed at
step `k + 1` (trace index `k`) is `og_blocks[k mod len(og_blocks)]`, and in
particular the first executed composition step composes the first block of
the pool with that same first block. -/
theorem generate_og_cyclic_selection (blocks : List OpenGraph) (nb : List ℕ)
    (m : ℤ) (seed : ℕ) (hb : blocks ≠ []) :
    (∀ k : ℕ, k < maxList nb - 1 →
        ((BlockComposer.generate_og_run blocks nb m false seed).trace.getD k
            (default, default)).2
          = blocks.getD (k % blocks.length) default)
    ∧ (1 ≤ maxList nb - 1 →
        (BlockComposer.generate_og_run blocks nb m false seed).trace.getD 0
            (default, default)
          = (blocks.headD default, blocks.headD default)) := by
  constructor
  · intro k hk
    rw [generate_og_run_false]
    have h0k : k % blocks.length = (0 + k) % blocks.length := by rw [Nat.zero_add]
    rw [h0k]
    exact genSteps_trace_getD blocks nb m false hb (maxList nb - 1) 1 blocks
      (blocks.headD default) 0 0 (Nat.zero_le _) (List.drop_zero blocks).symm k hk
  · intro h0
    rw [generate_og_run_false]
    rcases hf : maxList nb - 1 with _ | f
    · omega
    · rw [genSteps_trace, List.getD_cons_zero, ite_self]

/-- Witness for `generate_og_cyclic_selection` at the pool
`[get_og_1, get_og_2]` with `n_blocks = [1, 3, 5]`: step 1 composes
`get_og_1` with itself, and step 2 consumes `get_og_2`. -/
theorem generate_og_cyclic_selection_witness :
    ((BlockComposer.generate_og_run [get_og_1, get_og_2] [1, 3, 5] 0 false 42).trace.getD 0
        (default, default)) = (get_og_1, get_og_1)
    ∧ ((BlockComposer.generate_og_run [get_og_1, get_og_2] [1, 3, 5] 0 false 42).trace.getD 1
        (default, default)).2 = get_og_2 :=
  ⟨(generate_og_cyclic_selection [get_og_1, get_og_2] [1, 3, 5] 0 42 (by decide)).2
      (by decide),
   (generate_og_cyclic_selection [get_og_1, get_og_2] [1, 3, 5] 0 42 (by decide)).1 1
      (by decide)⟩

/-! ### Boundary bookkeeping of the merge primitive (towards claim C6) -/

lemma zip_filter_spec (og1 : OpenGraph) (u : List ℕ) :
    ∀ (ks vs : List ℕ), ks.Nodup → (∀ t ∈ vs, t ∈ og1.nodes) →
      ks.filter (fun v => decide (relabelFn og1 u (ks.zip vs) v ∉ og1.nodes))
          = ks.drop (min ks.length vs.length)
      ∧ (ks.filter
            (fun v => decide (relabelFn og1 u (ks.zip vs) v ∈ og1.nodes))).map
            (relabelFn og1 u (ks.zip vs))
          = vs.take (min ks.length vs.length) := by
  intro ks
  induction ks with
  | nil =>
    intro vs _ _
    exact ⟨by simp, by simp⟩
  | cons a as ih =>
    intro vs hnd hvs
    obtain ⟨ha_as, hnd'⟩ := List.nodup_cons.mp hnd
    cases vs with
    | nil =>
      have hnone : ∀ v : ℕ, dictLookup ((a :: as).zip ([] : List ℕ)) v = none := by
        intro v
        rw [List.zip_nil_right]
        rfl
      constructor
      · have hself : (a :: as).filter
            (fun v => decide (relabelFn og1 u ((a :: as).zip []) v ∉ og1.nodes))
            = a :: as :=
          List.filter_eq_self.mpr fun v _ => by
            simp only [decide_eq_true_eq]
            exact relabel_not_mem_of_none (hnone v)
        rw [hself]
        simp
      · have hnil : (a :: as).filter
            (fun v => decide (relabelFn og1 u ((a :: as).zip []) v ∈ og1.nodes))
            = [] :=
          List.filter_eq_nil_iff.mpr fun v _ => by
            simp only [decide_eq_true_eq]
            exact relabel_not_mem_of_none (hnone v)
        rw [hnil]
        simp
    | cons t ts =>
      have hzip : (a :: as).zip (t :: ts) = (a, t) :: as.zip ts := rfl
      have hlk_as : dictLookup (as.zip ts) a = none := dictLookup_zip_none ha_as
      have hlka : dictLookup ((a :: as).zip (t :: ts)) a = some t := by
        rw [hzip]
        simp [dictLookup, hlk_as]
      have hT : t ∈ og1.nodes := hvs t (List.mem_cons_self t ts)
      have hmerge_a : relabelFn og1 u ((a :: as).zip (t :: ts)) a ∈ og1.nodes := by
        rw [relabel_of_lookup_some hlka]
        exact hT
      have hagree : ∀ v ∈ as,
          dictLookup ((a :: as).zip (t :: ts)) v = dictLookup (as.zip ts) v := by
        intro v hv
        rw [hzip]
        exact dictLookup_cons_ne fun he => ha_as (by
          have ha : a = v := he
          rw [ha]; exact hv)
      have hiff : ∀ v ∈ as,
          (relabelFn og1 u ((a :: as).zip (t :: ts)) v ∈ og1.nodes
            ↔ relabelFn og1 u (as.zip ts) v ∈ og1.nodes) := by
        intro v hv
        cases hlk : dictLookup (as.zip ts) v with
        | some w =>
          rw [relabel_of_lookup_some ((hagree v hv).trans hlk),
            relabel_of_lookup_some hlk]
        | none =>
          exact iff_of_false
            (relabel_not_mem_of_none ((hagree v hv).trans hlk))
            (relabel_not_mem_of_none hlk)
      obtain ⟨ihA, ihB⟩ := ih ts hnd' fun x hx => hvs x (List.mem_cons_of_mem t hx)
      constructor
      · rw [List.filter_cons_of_neg
            (by simp only [decide_eq_true_eq]; exact not_not_intro hmerge_a)]
        rw [List.filter_congr
            (fun v hv => decide_eq_decide.mpr (not_congr (hiff v hv))), ihA]
        simp [Nat.succ_min_succ]
      · rw [List.filter_cons_of_pos
            (by simp only [decide_eq_true_eq]; exact hmerge_a)]
        rw [List.map_cons, relabel_of_lookup_some hlka]
        rw [List.filter_congr (fun v hv => decide_eq_decide.mpr (hiff v hv))]
        have hmap : ((as.filter
              (fun v => decide (relabelFn og1 u (as.zip ts) v ∈ og1.nodes))).map
              (relabelFn og1 u ((a :: as).zip (t :: ts))))
            = ((as.filter
              (fun v => decide (relabelFn og1 u (as.zip ts) v ∈ og1.nodes))).map
              (relabelFn og1 u (as.zip ts))) := by
          apply List.map_congr_left
          intro v hv
          have hv' : v ∈ as := List.mem_of_mem_filter hv
          have hvp : relabelFn og1 u (as.zip ts) v ∈ og1.nodes := by
            have := List.of_mem_filter hv
            simpa using this
          cases hlk : dictLookup (as.zip ts) v with
          | some w =>
            rw [relabel_of_lookup_some ((hagree v hv').trans hlk),
              relabel_of_lookup_some hlk]
          | none => exact absurd hvp (relabel_not_mem_of_none hlk)
        rw [hmap, ihB]
        simp [Nat.succ_min_succ]

lemma filter_not_mem_length {l s : List ℕ} (hl : l.Nodup) (hs : s.Nodup)
    (hsub : ∀ x ∈ s, x ∈ l) :
    (l.filter (fun x => decide (x ∉ s))).length = l.length - s.length := by
  have hperm := List.filter_append_perm (fun x => decide (x ∈ s)) l
  have hlen := hperm.length_eq
  rw [List.length_append] at hlen
  have hfs : (l.filter (fun x => decide (x ∈ s))).length = s.length := by
    have hnd1 : (l.filter (fun x => decide (x ∈ s))).Nodup := hl.filter _
    have hp : (l.filter (fun x => decide (x ∈ s))).Perm s := by
      rw [List.perm_ext_iff_of_nodup hnd1 hs]
      intro a
      rw [List.mem_filter]
      simp only [decide_eq_true_eq]
      exact ⟨fun h => h.2, fun h => ⟨hsub a h, h⟩⟩
    exact hp.length_eq
  have hpr : (l.filter (fun x => !decide (x ∈ s))).length
      = (l.filter (fun x => decide (x ∉ s))).length := by
    congr 1
    apply List.filter_congr
    intro x _
    simp [decide_not]
  omega

lemma compose_zip_spec (og1 og2 : OpenGraph) (tgts : List ℕ)
    (h1 : og1.outputs.Nodup) (h2 : ∀ o ∈ og1.outputs, o ∈ og1.nodes)
    (h3 : og2.inputs.Nodup) (h4 : og2.outputs.Nodup)
    (h5 : ∀ v ∈ og2.outputs, v ∉ og2.inputs)
    (h6 : ∀ v ∈ og2.outputs, v ∈ og2.nodes)
    (ht1 : tgts.Nodup) (ht2 : ∀ t ∈ tgts, t ∈ og1.outputs) :
    (og1.compose og2 (og2.inputs.zip tgts)).inputs.length
        = og1.inputs.length + og2.inputs.length
            - min og2.inputs.length tgts.length
    ∧ (og1.compose og2 (og2.inputs.zip tgts)).outputs.length
        = og1.outputs.length - min og2.inputs.length tgts.length
            + og2.outputs.length
    ∧ (og1.compose og2 (og2.inputs.zip tgts)).outputs.Nodup
    ∧ ∀ o ∈ (og1.compose og2 (og2.inputs.zip tgts)).outputs,
        o ∈ (og1.compose og2 (og2.inputs.zip tgts)).nodes := by
  have hrl : composeRl og1 og2 (og2.inputs.zip tgts)
      = relabelFn og1 (composeUnmapped og2 (og2.inputs.zip tgts))
          (og2.inputs.zip tgts) := rfl
  obtain ⟨ZA, ZB⟩ := zip_filter_spec og1
    (composeUnmapped og2 (og2.inputs.zip tgts)) og2.inputs tgts h3
    (fun t ht => h2 t (ht2 t ht))
  have hout_none : ∀ v ∈ og2.outputs,
      dictLookup (og2.inputs.zip tgts) v = none :=
    fun v hv => dictLookup_zip_none (h5 v hv)
  have hout_fresh : ∀ v ∈ og2.outputs,
      relabelFn og1 (composeUnmapped og2 (og2.inputs.zip tgts))
        (og2.inputs.zip tgts) v ∉ og1.nodes :=
    fun v hv => relabel_not_mem_of_none (hout_none v hv)
  have hfil_out_merged : og2.outputs.filter
      (fun v => decide (composeRl og1 og2 (og2.inputs.zip tgts) v ∈ og1.nodes))
      = [] :=
    List.filter_eq_nil_iff.mpr fun v hv => by
      simp only [decide_eq_true_eq, hrl]
      exact hout_fresh v hv
  have hfil_out_unmerged : og2.outputs.filter
      (fun v => decide (composeRl og1 og2 (og2.inputs.zip tgts) v ∉ og1.nodes))
      = og2.outputs :=
    List.filter_eq_self.mpr fun v hv => by
      simp only [decide_eq_true_eq, hrl]
      exact hout_fresh v hv
  have hk2 : min og2.inputs.length tgts.length ≤ og2.inputs.length :=
    min_le_left _ _
  have hk3 : min og2.inputs.length tgts.length ≤ tgts.length := min_le_right _ _
  have hktake : (tgts.take (min og2.inputs.length tgts.length)).length
      = min og2.inputs.length tgts.length := by
    rw [List.length_take]
    omega
  have htake_nd : (tgts.take (min og2.inputs.length tgts.length)).Nodup :=
    (List.take_sublist _ _).nodup ht1
  have htake_sub : ∀ x ∈ tgts.take (min og2.inputs.length tgts.length),
      x ∈ og1.outputs := fun x hx => ht2 x (List.mem_of_mem_take hx)
  -- the inputs of the composed graph
  have hin : (og1.compose og2 (og2.inputs.zip tgts)).inputs
      = og1.inputs
        ++ (og2.inputs.drop (min og2.inputs.length tgts.length)).map
            (composeRl og1 og2 (og2.inputs.zip tgts)) := by
    rw [compose_inputs, hfil_out_merged]
    have hfilin : og1.inputs.filter
        (fun i => decide (i ∉ ([] : List ℕ).map
          (composeRl og1 og2 (og2.inputs.zip tgts)))) = og1.inputs :=
      List.filter_eq_self.mpr fun i _ => by simp
    rw [hfilin]
    congr 1
    rw [hrl, ZA]
  -- the outputs of the composed graph
  have hout : (og1.compose og2 (og2.inputs.zip tgts)).outputs
      = og1.outputs.filter
          (fun o => decide (o ∉ tgts.take (min og2.inputs.length tgts.length)))
        ++ og2.outputs.map (composeRl og1 og2 (og2.inputs.zip tgts)) := by
    rw [compose_outputs, hfil_out_unmerged]
    congr 1
    apply List.filter_congr
    intro o _
    congr 1
    rw [hrl, ZB]
  refine ⟨?_, ?_, ?_, ?_⟩
  · rw [hin, List.length_append, List.length_map, List.length_drop]
    omega
  · rw [hout, List.length_append, List.length_map,
      filter_not_mem_length h1 htake_nd htake_sub, hktake]
  · rw [hout]
    refine List.Nodup.append (h1.filter _) ?_ ?_
    · refine List.Nodup.map_on ?_ h4
      intro x hx y hy hxy
      rw [hrl, relabel_of_lookup_none (hout_none x hx),
        relabel_of_lookup_none (hout_none y hy)] at hxy
      have hxy' := Nat.add_left_cancel hxy
      have hxu : x ∈ composeUnmapped og2 (og2.inputs.zip tgts) :=
        List.mem_filter.mpr ⟨h6 x hx, by rw [hout_none x hx]; rfl⟩
      have hyu : y ∈ composeUnmapped og2 (og2.inputs.zip tgts) :=
        List.mem_filter.mpr ⟨h6 y hy, by rw [hout_none y hy]; rfl⟩
      exact (List.indexOf_inj hxu hyu).mp hxy'
    · intro x hx hx2
      have hx1 : x ∈ og1.outputs := List.mem_of_mem_filter hx
      obtain ⟨v, hv, hvx⟩ := List.mem_map.mp hx2
      rw [hrl] at hvx
      exact hout_fresh v hv (hvx ▸ h2 x hx1)
  · rw [hout]
    intro o ho
    rw [compose_nodes, List.mem_append]
    rcases List.mem_append.mp ho with h | h
    · exact Or.inl (h2 o (List.mem_of_mem_filter h))
    · obtain ⟨v, hv, hvo⟩ := List.mem_map.mp h
      right
      rw [List.mem_filter]
      constructor
      · exact List.mem_map.mpr ⟨v, h6 v hv, hvo⟩
      · simp only [decide_eq_true_eq]
        rw [← hvo, hrl]
        exact hout_fresh v hv

lemma layerMapping_eq {og_aux : OpenGraph} (shift : ℕ) {a b c d : ℕ}
    (hin : og_aux.inputs = [a, b]) (hout : og_aux.outputs = [c, d]) :
    layerMapping og_aux shift
      = [(a, shift), (b, shift + 1), (c, shift + 2), (d, shift + 3)] := by
  rw [layerMapping, hin, hout]
  rfl

lemma compose_layer_spec (og1 og_aux : OpenGraph) (shift : ℕ)
    (hsh : ∀ v ∈ og1.nodes, v < shift)
    (hn1 : og1.nodes.Nodup)
    {a b c d : ℕ}
    (hin : og_aux.inputs = [a, b]) (hout : og_aux.outputs = [c, d])
    (hio : (og_aux.inputs ++ og_aux.outputs).Nodup)
    (hsubin : ∀ v ∈ og_aux.inputs, v ∈ og_aux.nodes)
    (hsubout : ∀ v ∈ og_aux.outputs, v ∈ og_aux.nodes)
    (hnaux : og_aux.nodes.Nodup) :
    (og1.compose og_aux (layerMapping og_aux shift)).inputs
        = og1.inputs ++ [shift, shift + 1]
    ∧ (og1.compose og_aux (layerMapping og_aux shift)).outputs
        = og1.outputs ++ [shift + 2, shift + 3]
    ∧ (og1.compose og_aux (layerMapping og_aux shift)).nodes.length
        = og1.nodes.length + og_aux.nodes.length
    ∧ (og1.compose og_aux (layerMapping og_aux shift)).nodes.Nodup
    ∧ (∀ v ∈ (og1.compose og_aux (layerMapping og_aux shift)).nodes,
        v < shift + og_aux.nodes.length)
    ∧ (∀ x ∈ [shift, shift + 1, shift + 2, shift + 3],
        x ∈ (og1.compose og_aux (layerMapping og_aux shift)).nodes) := by
  have hm := layerMapping_eq shift hin hout
  have hnd4 : ([a, b, c, d] : List ℕ).Nodup := by
    rw [hin, hout] at hio
    exact hio
  have hab : a ≠ b := by simp [List.nodup_cons] at hnd4; tauto
  have hac : a ≠ c := by simp [List.nodup_cons] at hnd4; tauto
  have had : a ≠ d := by simp [List.nodup_cons] at hnd4; tauto
  have hbc : b ≠ c := by simp [List.nodup_cons] at hnd4; tauto
  have hbd : b ≠ d := by simp [List.nodup_cons] at hnd4; tauto
  have hcd : c ≠ d := by simp [List.nodup_cons] at hnd4; tauto
  have ha_mem : a ∈ og_aux.nodes := hsubin a (by rw [hin]; simp)
  have hb_mem : b ∈ og_aux.nodes := hsubin b (by rw [hin]; simp)
  have hc_mem : c ∈ og_aux.nodes := hsubout c (by rw [hout]; simp)
  have hd_mem : d ∈ og_aux.nodes := hsubout d (by rw [hout]; simp)
  -- lookups in the concrete four-entry mapping
  have hla : dictLookup (layerMapping og_aux shift) a = some shift := by
    rw [hm]
    simp [dictLookup, hab, hac, had, Ne.symm hab, Ne.symm hac, Ne.symm had]
  have hlb : dictLookup (layerMapping og_aux shift) b = some (shift + 1) := by
    rw [hm]
    simp [dictLookup, hbc, hbd, Ne.symm hab, Ne.symm hbc, Ne.symm hbd]
  have hlc : dictLookup (layerMapping og_aux shift) c = some (shift + 2) := by
    rw [hm]
    simp [dictLookup, hcd, Ne.symm hac, Ne.symm hbc, Ne.symm hcd]
  have hld : dictLookup (layerMapping og_aux shift) d = some (shift + 3) := by
    rw [hm]
    simp [dictLookup, Ne.symm had, Ne.symm hbd, Ne.symm hcd]
  have hlnone : ∀ v : ℕ, v ∉ ([a, b, c, d] : List ℕ) →
      dictLookup (layerMapping og_aux shift) v = none := by
    intro v hv
    rw [hm]
    apply dictLookup_eq_none
    intro p hp he
    apply hv
    rw [← he]
    rcases List.mem_cons.mp hp with rfl | hp
    · simp
    rcases List.mem_cons.mp hp with rfl | hp
    · simp
    rcases List.mem_cons.mp hp with rfl | hp
    · simp
    rcases List.mem_cons.mp hp with rfl | hp
    · simp
    · cases hp
  -- the base for fresh identifiers is exactly `shift + 4`
  have hbase : composeBase og1 (layerMapping og_aux shift) = shift + 4 := by
    rw [composeBase, hm]
    have hv : maxList ([(a, shift), (b, shift + 1), (c, shift + 2),
        (d, shift + 3)].map Prod.snd) = shift + 3 := by
      simp [maxList]
    have hn : maxList og1.nodes ≤ shift + 3 :=
      maxList_le fun x hx => by have := hsh x hx; omega
    rw [hv, max_eq_right hn]
  -- the unmapped nodes are the non-boundary nodes
  have hu_eq : composeUnmapped og_aux (layerMapping og_aux shift)
      = og_aux.nodes.filter (fun v => decide (v ∉ ([a, b, c, d] : List ℕ))) := by
    apply List.filter_congr
    intro v _
    by_cases hv : v ∈ ([a, b, c, d] : List ℕ)
    · have hlkv : ∃ t, dictLookup (layerMapping og_aux shift) v = some t := by
        rcases (by simpa using hv : v = a ∨ v = b ∨ v = c ∨ v = d) with
          rfl | rfl | rfl | rfl
        · exact ⟨_, hla⟩
        · exact ⟨_, hlb⟩
        · exact ⟨_, hlc⟩
        · exact ⟨_, hld⟩
      obtain ⟨t, ht⟩ := hlkv
      rw [ht]
      simp [hv]
    · rw [hlnone v hv]
      simp [hv]
  have hrl : composeRl og1 og_aux (layerMapping og_aux shift)
      = relabelFn og1 (composeUnmapped og_aux (layerMapping og_aux shift))
          (layerMapping og_aux shift) := rfl
  -- every relabelled identifier avoids `og1.nodes`
  have hfresh : ∀ v : ℕ,
      composeRl og1 og_aux (layerMapping og_aux shift) v ∉ og1.nodes := by
    intro v
    by_cases hv : v ∈ ([a, b, c, d] : List ℕ)
    · rcases (by simpa using hv : v = a ∨ v = b ∨ v = c ∨ v = d) with
        rfl | rfl | rfl | rfl
      · rw [hrl, relabel_of_lookup_some hla]
        intro hmem
        exact absurd (hsh _ hmem) (by omega)
      · rw [hrl, relabel_of_lookup_some hlb]
        intro hmem
        exact absurd (hsh _ hmem) (by omega)
      · rw [hrl, relabel_of_lookup_some hlc]
        intro hmem
        exact absurd (hsh _ hmem) (by omega)
      · rw [hrl, relabel_of_lookup_some hld]
        intro hmem
        exact absurd (hsh _ hmem) (by omega)
    · rw [hrl]
      exact relabel_not_mem_of_none (hlnone v hv)
  -- values of the relabelling
  have hrla : composeRl og1 og_aux (layerMapping og_aux shift) a = shift := by
    rw [hrl, relabel_of_lookup_some hla]
  have hrlb : composeRl og1 og_aux (layerMapping og_aux shift) b = shift + 1 := by
    rw [hrl, relabel_of_lookup_some hlb]
  have hrlc : composeRl og1 og_aux (layerMapping og_aux shift) c = shift + 2 := by
    rw [hrl, relabel_of_lookup_some hlc]
  have hrld : composeRl og1 og_aux (layerMapping og_aux shift) d = shift + 3 := by
    rw [hrl, relabel_of_lookup_some hld]
  have hrlo : ∀ v : ℕ, v ∉ ([a, b, c, d] : List ℕ) →
      composeRl og1 og_aux (layerMapping og_aux shift) v
        = shift + 4 + (composeUnmapped og_aux (layerMapping og_aux shift)).indexOf v := by
    intro v hv
    rw [hrl, relabel_of_lookup_none (hlnone v hv), hbase]
  have humem : ∀ v ∈ og_aux.nodes, v ∉ ([a, b, c, d] : List ℕ) →
      v ∈ composeUnmapped og_aux (layerMapping og_aux shift) := by
    intro v hv hv4
    rw [hu_eq, List.mem_filter]
    exact ⟨hv, by simpa using hv4⟩
  have hulen : (composeUnmapped og_aux (layerMapping og_aux shift)).length
      = og_aux.nodes.length - 4 := by
    rw [hu_eq]
    have h4sub : ∀ x ∈ ([a, b, c, d] : List ℕ), x ∈ og_aux.nodes := by
      intro x hx
      rcases (by simpa using hx : x = a ∨ x = b ∨ x = c ∨ x = d) with
        rfl | rfl | rfl | rfl
      · exact ha_mem
      · exact hb_mem
      · exact hc_mem
      · exact hd_mem
    have := filter_not_mem_length hnaux hnd4 h4sub
    simpa using this
  have hN4 : 4 ≤ og_aux.nodes.length := by
    have h4sub : ([a, b, c, d] : List ℕ).toFinset ⊆ og_aux.nodes.toFinset := by
      intro x hx
      rw [List.mem_toFinset] at hx ⊢
      rcases (by simpa using hx : x = a ∨ x = b ∨ x = c ∨ x = d) with
        rfl | rfl | rfl | rfl
      · exact ha_mem
      · exact hb_mem
      · exact hc_mem
      · exact hd_mem
    have h1 := List.toFinset_card_of_nodup hnd4
    have h1' : ([a, b, c, d] : List ℕ).length = 4 := rfl
    have h2 := Finset.card_le_card h4sub
    have h3 := og_aux.nodes.toFinset_card_le
    omega
  -- boundary filters: nothing of `og_aux` merges
  have hfil_in : og_aux.inputs.filter
      (fun v => decide (composeRl og1 og_aux (layerMapping og_aux shift) v
        ∉ og1.nodes)) = og_aux.inputs :=
    List.filter_eq_self.mpr fun v _ => by
      simp only [decide_eq_true_eq]
      exact hfresh v
  have hfil_in_merged : og_aux.inputs.filter
      (fun v => decide (composeRl og1 og_aux (layerMapping og_aux shift) v
        ∈ og1.nodes)) = [] :=
    List.filter_eq_nil_iff.mpr fun v _ => by
      simp only [decide_eq_true_eq]
      exact hfresh v
  have hfil_out : og_aux.outputs.filter
      (fun v => decide (composeRl og1 og_aux (layerMapping og_aux shift) v
        ∉ og1.nodes)) = og_aux.outputs :=
    List.filter_eq_self.mpr fun v _ => by
      simp only [decide_eq_true_eq]
      exact hfresh v
  have hfil_out_merged : og_aux.outputs.filter
      (fun v => decide (composeRl og1 og_aux (layerMapping og_aux shift) v
        ∈ og1.nodes)) = [] :=
    List.filter_eq_nil_iff.mpr fun v _ => by
      simp only [decide_eq_true_eq]
      exact hfresh v
  -- the node list keeps everything
  have hnodes_eq : (og1.compose og_aux (layerMapping og_aux shift)).nodes
      = og1.nodes ++ og_aux.nodes.map
          (composeRl og1 og_aux (layerMapping og_aux shift)) := by
    rw [compose_nodes]
    congr 1
    apply List.filter_eq_self.mpr
    intro x hx
    obtain ⟨v, _, hvx⟩ := List.mem_map.mp hx
    simp only [decide_eq_true_eq]
    rw [← hvx]
    exact hfresh v
  -- injectivity of the relabelling on the nodes of the block
  have hinj : ∀ x ∈ og_aux.nodes, ∀ y ∈ og_aux.nodes,
      composeRl og1 og_aux (layerMapping og_aux shift) x
        = composeRl og1 og_aux (layerMapping og_aux shift) y → x = y := by
    intro x hx y hy hxy
    by_cases hx4 : x ∈ ([a, b, c, d] : List ℕ)
    · by_cases hy4 : y ∈ ([a, b, c, d] : List ℕ)
      · rcases (by simpa using hx4 : x = a ∨ x = b ∨ x = c ∨ x = d) with
          hx' | hx' | hx' | hx' <;>
        rcases (by simpa using hy4 : y = a ∨ y = b ∨ y = c ∨ y = d) with
          hy' | hy' | hy' | hy' <;>
        rw [hx', hy'] at hxy ⊢ <;>
        simp only [hrla, hrlb, hrlc, hrld] at hxy <;>
        omega
      · have h1 := hrlo y hy4
        rcases (by simpa using hx4 : x = a ∨ x = b ∨ x = c ∨ x = d) with
          hx' | hx' | hx' | hx' <;>
          rw [hx'] at hxy <;>
          simp only [hrla, hrlb, hrlc, hrld, h1] at hxy <;> omega
    · by_cases hy4 : y ∈ ([a, b, c, d] : List ℕ)
      · have h1 := hrlo x hx4
        rcases (by simpa using hy4 : y = a ∨ y = b ∨ y = c ∨ y = d) with
          hy' | hy' | hy' | hy' <;>
          rw [hy'] at hxy <;>
          simp only [hrla, hrlb, hrlc, hrld, h1] at hxy <;> omega
      · rw [hrlo x hx4, hrlo y hy4] at hxy
        have hxy' : (composeUnmapped og_aux (layerMapping og_aux shift)).indexOf x
            = (composeUnmapped og_aux (layerMapping og_aux shift)).indexOf y := by
          omega
        exact (List.indexOf_inj (humem x hx hx4) (humem y hy hy4)).mp hxy'
  refine ⟨?_, ?_, ?_, ?_, ?_, ?_⟩
  · rw [compose_inputs, hfil_out_merged]
    have hfilin1 : og1.inputs.filter
        (fun i => decide (i ∉ ([] : List ℕ).map
          (composeRl og1 og_aux (layerMapping og_aux shift)))) = og1.inputs :=
      List.filter_eq_self.mpr fun i _ => by simp
    rw [hfilin1, hfil_in, hin]
    simp [hrla, hrlb]
  · rw [compose_outputs, hfil_in_merged]
    have hfilout1 : og1.outputs.filter
        (fun o => decide (o ∉ ([] : List ℕ).map
          (composeRl og1 og_aux (layerMapping og_aux shift)))) = og1.outputs :=
      List.filter_eq_self.mpr fun o _ => by simp
    rw [hfilout1, hfil_out, hout]
    simp [hrlc, hrld]
  · rw [hnodes_eq, List.length_append, List.length_map]
  · rw [hnodes_eq]
    refine List.Nodup.append hn1 (List.Nodup.map_on hinj hnaux) ?_
    intro x hx1 hx2
    obtain ⟨v, _, hvx⟩ := List.mem_map.mp hx2
    exact hfresh v (hvx ▸ hx1)
  · rw [hnodes_eq]
    intro v hv
    rcases List.mem_append.mp hv with h | h
    · have := hsh v h
      omega
    · obtain ⟨w, hw, hwv⟩ := List.mem_map.mp h
      by_cases hw4 : w ∈ ([a, b, c, d] : List ℕ)
      · rcases (by simpa using hw4 : w = a ∨ w = b ∨ w = c ∨ w = d) with
          rfl | rfl | rfl | rfl <;>
          rw [← hwv] <;>
          simp only [hrla, hrlb, hrlc, hrld] <;> omega
      · rw [← hwv, hrlo w hw4]
        have hidx := List.indexOf_lt_length.mpr (humem w hw hw4)
        rw [hulen] at hidx
        omega
  · rw [hnodes_eq]
    intro x hx
    rcases (by simpa using hx : x = shift ∨ x = shift + 1 ∨ x = shift + 2
        ∨ x = shift + 3) with rfl | rfl | rfl | rfl
    · exact List.mem_append_right _ (List.mem_map.mpr ⟨a, ha_mem, hrla⟩)
    · exact List.mem_append_right _ (List.mem_map.mpr ⟨b, hb_mem, hrlb⟩)
    · exact List.mem_append_right _ (List.mem_map.mpr ⟨c, hc_mem, hrlc⟩)
    · exact List.mem_append_right _ (List.mem_map.mpr ⟨d, hd_mem, hrld⟩)

lemma getLayersGo_spec (og_aux : OpenGraph) {a b c d : ℕ}
    (hin : og_aux.inputs = [a, b]) (hout : og_aux.outputs = [c, d])
    (hio : (og_aux.inputs ++ og_aux.outputs).Nodup)
    (hsubin : ∀ v ∈ og_aux.inputs, v ∈ og_aux.nodes)
    (hsubout : ∀ v ∈ og_aux.outputs, v ∈ og_aux.nodes)
    (hnaux : og_aux.nodes.Nodup) :
    ∀ (fuel : ℕ) (og0 og1 : OpenGraph),
      WfParallel og0 og0.nodes.length → WfParallel og1 og0.nodes.length →
      WfParallel (getLayersGo og_aux fuel og0 og1).1
          (getLayersGo og_aux fuel og0 og1).1.nodes.length
      ∧ WfParallel (getLayersGo og_aux fuel og0 og1).2
          (getLayersGo og_aux fuel og0 og1).1.nodes.length
      ∧ (getLayersGo og_aux fuel og0 og1).1.inputs.length
          = og0.inputs.length + 2 * fuel
      ∧ (getLayersGo og_aux fuel og0 og1).1.outputs.length
          = og0.outputs.length + 2 * fuel
      ∧ (getLayersGo og_aux fuel og0 og1).2.inputs.length
          = og1.inputs.length + 2 * (fuel - 1)
      ∧ (getLayersGo og_aux fuel og0 og1).2.outputs.length
          = og1.outputs.length + 2 * (fuel - 1) := by
  intro fuel
  induction fuel with
  | zero =>
    intro og0 og1 h0 h1
    exact ⟨h0, h1, by simp [getLayersGo], by simp [getLayersGo],
      by simp [getLayersGo], by simp [getLayersGo]⟩
  | succ f ih =>
    intro og0 og1 h0 h1
    obtain ⟨h0nd, h0bd, h0in, h0out, h0disj, h0insub, h0outsub⟩ := h0
    obtain ⟨h1nd, h1bd, h1in, h1out, h1disj, h1insub, h1outsub⟩ := h1
    have hord : og0.order = og0.nodes.length := rfl
    obtain ⟨c0in, c0out, c0len, c0nd, c0bd, c0tg⟩ :=
      compose_layer_spec og0 og_aux og0.order (fun v hv => h0bd v hv) h0nd
        hin hout hio hsubin hsubout hnaux
    -- the new running layer-0 template
    set og0' := og0.compose og_aux (layerMapping og_aux og0.order) with hog0'
    have h0'len : og0'.nodes.length = og0.nodes.length + og_aux.nodes.length := c0len
    have hW0' : WfParallel og0' og0'.nodes.length := by
      refine ⟨c0nd, ?_, ?_, ?_, ?_, ?_, ?_⟩
      · intro v hv
        have := c0bd v hv
        omega
      · rw [c0in]
        refine List.Nodup.append h0in (by simp) ?_
        intro x hx1 hx2
        have hxlt : x < og0.order := h0bd x (h0insub x hx1)
        rcases (by simpa using hx2 : x = og0.order ∨ x = og0.order + 1) with
          rfl | rfl <;> omega
      · rw [c0out]
        refine List.Nodup.append h0out (by simp) ?_
        intro x hx1 hx2
        have hxlt : x < og0.order := h0bd x (h0outsub x hx1)
        rcases (by simpa using hx2 : x = og0.order + 2 ∨ x = og0.order + 3) with
          rfl | rfl <;> omega
      · rw [c0in, c0out]
        intro v hv
        rcases List.mem_append.mp hv with h | h
        · have hvlt : v < og0.order := h0bd v (h0outsub v h)
          intro hcon
          rcases List.mem_append.mp hcon with h2 | h2
          · exact h0disj v h h2
          · rcases (by simpa using h2 : v = og0.order ∨ v = og0.order + 1) with
              rfl | rfl <;> omega
        · rcases (by simpa using h : v = og0.order + 2 ∨ v = og0.order + 3) with
            rfl | rfl <;>
          · intro hcon
            rcases List.mem_append.mp hcon with h2 | h2
            · have := h0bd _ (h0insub _ h2)
              omega
            · rcases (by simpa using h2 :
                  og0.order + 2 = og0.order ∨ og0.order + 2 = og0.order + 1
                    ∨ og0.order + 3 = og0.order ∨ og0.order + 3 = og0.order + 1)
                with h3 | h3 <;> omega
      · rw [c0in]
        intro v hv
        rcases List.mem_append.mp hv with h | h
        · rw [compose_nodes]
          exact List.mem_append_left _ (h0insub v h)
        · apply c0tg
          rcases (by simpa using h : v = og0.order ∨ v = og0.order + 1) with
            rfl | rfl <;> simp
      · rw [c0out]
        intro v hv
        rcases List.mem_append.mp hv with h | h
        · rw [compose_nodes]
          exact List.mem_append_left _ (h0outsub v h)
        · apply c0tg
          rcases (by simpa using h : v = og0.order + 2 ∨ v = og0.order + 3) with
            rfl | rfl <;> simp
    by_cases hf : 0 < f
    · obtain ⟨c1in, c1out, c1len, c1nd, c1bd, c1tg⟩ :=
        compose_layer_spec og1 og_aux og0.order (fun v hv => h1bd v hv) h1nd
          hin hout hio hsubin hsubout hnaux
      set og1' := og1.compose og_aux (layerMapping og_aux og0.order) with hog1'
      have hW1' : WfParallel og1' og0'.nodes.length := by
        refine ⟨c1nd, ?_, ?_, ?_, ?_, ?_, ?_⟩
        · intro v hv
          have := c1bd v hv
          omega
        · rw [c1in]
          refine List.Nodup.append h1in (by simp) ?_
          intro x hx1 hx2
          have hxlt : x < og0.order := h1bd x (h1insub x hx1)
          rcases (by simpa using hx2 : x = og0.order ∨ x = og0.order + 1) with
            rfl | rfl <;> omega
        · rw [c1out]
          refine List.Nodup.append h1out (by simp) ?_
          intro x hx1 hx2
          have hxlt : x < og0.order := h1bd x (h1outsub x hx1)
          rcases (by simpa using hx2 : x = og0.order + 2 ∨ x = og0.order + 3) with
            rfl | rfl <;> omega
        · rw [c1in, c1out]
          intro v hv
          rcases List.mem_append.mp hv with h | h
          · have hvlt : v < og0.order := h1bd v (h1outsub v h)
            intro hcon
            rcases List.mem_append.mp hcon with h2 | h2
            · exact h1disj v h h2
            · rcases (by simpa using h2 : v = og0.order ∨ v = og0.order + 1) with
                rfl | rfl <;> omega
          · rcases (by simpa using h : v = og0.order + 2 ∨ v = og0.order + 3) with
              rfl | rfl <;>
            · intro hcon
              rcases List.mem_append.mp hcon with h2 | h2
              · have := h1bd _ (h1insub _ h2)
                omega
              · rcases (by simpa using h2 :
                    og0.order + 2 = og0.order ∨ og0.order + 2 = og0.order + 1
                      ∨ og0.order + 3 = og0.order ∨ og0.order + 3 = og0.order + 1)
                  with h3 | h3 <;> omega
        · rw [c1in]
          intro v hv
          rcases List.mem_append.mp hv with h | h
          · rw [compose_nodes]
            exact List.mem_append_left _ (h1insub v h)
          · apply c1tg
            rcases (by simpa using h : v = og0.order ∨ v = og0.order + 1) with
              rfl | rfl <;> simp
        · rw [c1out]
          intro v hv
          rcases List.mem_append.mp hv with h | h
          · rw [compose_nodes]
            exact List.mem_append_left _ (h1outsub v h)
          · apply c1tg
            rcases (by simpa using h : v = og0.order + 2 ∨ v = og0.order + 3) with
              rfl | rfl <;> simp
      have hstep : getLayersGo og_aux (f + 1) og0 og1
          = getLayersGo og_aux f og0' og1' := by
        rw [hog0', hog1']
        show getLayersGo og_aux f _ (if 0 < f then _ else og1) = _
        rw [if_pos hf]
      obtain ⟨r1, r2, r3, r4, r5, r6⟩ := ih og0' og1' hW0' hW1'
      rw [hstep]
      refine ⟨r1, r2, ?_, ?_, ?_, ?_⟩
      · rw [r3, c0in, List.length_append]
        simp
        omega
      · rw [r4, c0out, List.length_append]
        simp
        omega
      · rw [r5, c1in, List.length_append]
        simp
        omega
      · rw [r6, c1out, List.length_append]
        simp
        omega
    · have hf0 : f = 0 := by omega
      subst hf0
      have hW1' : WfParallel og1 og0'.nodes.length := by
        refine ⟨h1nd, ?_, h1in, h1out, h1disj, h1insub, h1outsub⟩
        intro v hv
        have := h1bd v hv
        omega
      have hstep : getLayersGo og_aux (0 + 1) og0 og1
          = getLayersGo og_aux 0 og0' og1 := by
        rw [hog0']
        show getLayersGo og_aux 0 _ (if 0 < 0 then _ else og1) = _
        rfl
      obtain ⟨r1, r2, r3, r4, r5, r6⟩ := ih og0' og1 hW0' hW1'
      rw [hstep]
      refine ⟨r1, r2, ?_, ?_, ?_, ?_⟩
      · rw [r3, c0in, List.length_append]
        simp
      · rw [r4, c0out, List.length_append]
        simp
      · rw [r5]
      · rw [r6]

lemma moveSecondToEnd_perm (l : List ℕ) : (moveSecondToEnd l).Perm l := by
  unfold moveSecondToEnd
  have hv : l.getD 1 0 ∈ l ++ [l.getD 1 0] := by simp
  have h1 := List.perm_cons_erase hv
  have h2 : (l ++ [l.getD 1 0]).Perm (l.getD 1 0 :: l) :=
    List.perm_append_singleton _ _
  exact (h1.symm.trans h2).cons_inv

lemma add_l1_widths (l1 og : OpenGraph)
    (h1 : og.outputs.Nodup) (h2 : ∀ o ∈ og.outputs, o ∈ og.nodes)
    (h3 : l1.inputs.Nodup) (h4 : l1.outputs.Nodup)
    (h5 : ∀ v ∈ l1.outputs, v ∉ l1.inputs)
    (h6 : ∀ v ∈ l1.outputs, v ∈ l1.nodes) :
    (add_l1 l1 og).inputs.length
        = og.inputs.length + l1.inputs.length
            - min l1.inputs.length
                (if og.outputs.length > 3 then og.outputs.length - 2
                  else og.outputs.length - 1)
    ∧ (add_l1 l1 og).outputs.length
        = og.outputs.length
            - min l1.inputs.length
                (if og.outputs.length > 3 then og.outputs.length - 2
                  else og.outputs.length - 1)
            + l1.outputs.length
    ∧ (add_l1 l1 og).outputs.Nodup
    ∧ ∀ o ∈ (add_l1 l1 og).outputs, o ∈ (add_l1 l1 og).nodes := by
  unfold add_l1
  by_cases hW : og.outputs.length > 3
  · simp only [if_pos hW]
    have hsubl : ((og.outputs.drop 1).dropLast).Sublist og.outputs :=
      (List.dropLast_sublist _).trans (List.drop_sublist 1 _)
    have hlen : ((og.outputs.drop 1).dropLast).length = og.outputs.length - 2 := by
      rw [List.length_dropLast, List.length_drop]
      omega
    obtain ⟨s1, s2, s3, s4⟩ := compose_zip_spec og l1 ((og.outputs.drop 1).dropLast)
      h1 h2 h3 h4 h5 h6 (hsubl.nodup h1) (fun t ht => hsubl.subset ht)
    rw [hlen] at s1 s2
    exact ⟨s1, s2, s3, s4⟩
  · simp only [if_neg hW]
    have hsubl : (og.outputs.drop 1).Sublist og.outputs := List.drop_sublist 1 _
    have hlen : (og.outputs.drop 1).length = og.outputs.length - 1 :=
      List.length_drop 1 _
    obtain ⟨s1, s2, s3, s4⟩ := compose_zip_spec og l1 (og.outputs.drop 1)
      h1 h2 h3 h4 h5 h6 (hsubl.nodup h1) (fun t ht => hsubl.subset ht)
    rw [hlen] at s1 s2
    exact ⟨s1, s2, s3, s4⟩

lemma add_l0_widths (l0 og : OpenGraph)
    (h1 : og.outputs.Nodup) (h2 : ∀ o ∈ og.outputs, o ∈ og.nodes)
    (h3 : l0.inputs.Nodup) (h4 : l0.outputs.Nodup)
    (h5 : ∀ v ∈ l0.outputs, v ∉ l0.inputs)
    (h6 : ∀ v ∈ l0.outputs, v ∈ l0.nodes) :
    (add_l0 l0 og).inputs.length
        = og.inputs.length + l0.inputs.length
            - min l0.inputs.length
                (if og.outputs.length = 3 then og.outputs.length - 1
                  else og.outputs.length)
    ∧ (add_l0 l0 og).outputs.length
        = og.outputs.length
            - min l0.inputs.length
                (if og.outputs.length = 3 then og.outputs.length - 1
                  else og.outputs.length)
            + l0.outputs.length
    ∧ (add_l0 l0 og).outputs.Nodup
    ∧ ∀ o ∈ (add_l0 l0 og).outputs, o ∈ (add_l0 l0 og).nodes := by
  unfold add_l0
  by_cases hW : og.outputs.length = 3
  · simp only [if_pos hW]
    have hsubl : (og.outputs.dropLast).Sublist og.outputs := List.dropLast_sublist _
    have hlen : (og.outputs.dropLast).length = og.outputs.length - 1 :=
      List.length_dropLast _
    obtain ⟨s1, s2, s3, s4⟩ := compose_zip_spec og l0 og.outputs.dropLast
      h1 h2 h3 h4 h5 h6 (hsubl.nodup h1) (fun t ht => hsubl.subset ht)
    rw [hlen] at s1 s2
    exact ⟨s1, s2, s3, s4⟩
  · simp only [if_neg hW]
    have hperm := moveSecondToEnd_perm og.outputs
    have hlen : (moveSecondToEnd og.outputs).length = og.outputs.length :=
      hperm.length_eq
    obtain ⟨s1, s2, s3, s4⟩ := compose_zip_spec og l0 (moveSecondToEnd og.outputs)
      h1 h2 h3 h4 h5 h6 (hperm.nodup_iff.mpr h1) (fun t ht => hperm.subset ht)
    rw [hlen] at s1 s2
    exact ⟨s1, s2, s3, s4⟩

lemma gridLoop_preserves (l0 l1 : OpenGraph) (W : ℕ)
    (hpres1 : ∀ og, WfRun og W → WfRun (add_l1 l1 og) W)
    (hpres0 : ∀ og, WfRun og W → WfRun (add_l0 l0 og) W) :
    ∀ (k : ℕ) (bb : Bool) (og : OpenGraph), WfRun og W →
      WfRun (gridLoop l0 l1 k bb og) W := by
  intro k
  induction k with
  | zero => intro bb og h; exact h
  | succ n ih =>
    intro bb og h
    cases bb with
    | false => exact ih _ _ (hpres0 og h)
    | true => exact ih _ _ (hpres1 og h)

lemma add_preserves_big (l0 l1 : OpenGraph) (W : ℕ) (hW : 4 ≤ W)
    (hl0in : l0.inputs.length = W) (hl0out : l0.outputs.length = W)
    (hl0innd : l0.inputs.Nodup) (hl0outnd : l0.outputs.Nodup)
    (hl0disj : ∀ v ∈ l0.outputs, v ∉ l0.inputs)
    (hl0outsub : ∀ v ∈ l0.outputs, v ∈ l0.nodes)
    (hl1in : l1.inputs.length = W - 2) (hl1out : l1.outputs.length = W - 2)
    (hl1innd : l1.inputs.Nodup) (hl1outnd : l1.outputs.Nodup)
    (hl1disj : ∀ v ∈ l1.outputs, v ∉ l1.inputs)
    (hl1outsub : ∀ v ∈ l1.outputs, v ∈ l1.nodes) :
    (∀ og, WfRun og W → WfRun (add_l1 l1 og) W)
    ∧ ∀ og, WfRun og W → WfRun (add_l0 l0 og) W := by
  constructor
  · rintro og ⟨qin, qout, qnd, qsub⟩
    obtain ⟨s1, s2, s3, s4⟩ :=
      add_l1_widths l1 og qnd qsub hl1innd hl1outnd hl1disj hl1outsub
    rw [qout] at s1 s2
    rw [if_pos (by omega : W > 3)] at s1 s2
    rw [hl1in, min_self] at s1 s2
    refine ⟨?_, ?_, s3, s4⟩
    · rw [s1, qin]
      omega
    · rw [s2, hl1out]
      omega
  · rintro og ⟨qin, qout, qnd, qsub⟩
    obtain ⟨s1, s2, s3, s4⟩ :=
      add_l0_widths l0 og qnd qsub hl0innd hl0outnd hl0disj hl0outsub
    rw [qout] at s1 s2
    rw [if_neg (by omega : ¬W = 3)] at s1 s2
    rw [hl0in, min_self] at s1 s2
    refine ⟨?_, ?_, s3, s4⟩
    · rw [s1, qin]
      omega
    · rw [s2, hl0out]
      omega

lemma add_preserves_three (bl : OpenGraph)
    (hbin : bl.inputs.length = 2) (hbout : bl.outputs.length = 2)
    (hbinnd : bl.inputs.Nodup) (hboutnd : bl.outputs.Nodup)
    (hbdisj : ∀ v ∈ bl.outputs, v ∉ bl.inputs)
    (hboutsub : ∀ v ∈ bl.outputs, v ∈ bl.nodes) :
    (∀ og, WfRun og 3 → WfRun (add_l1 bl og) 3)
    ∧ (∀ og, WfRun og 3 → WfRun (add_l0 bl og) 3)
    ∧ ∀ og, WfRun og 2 → WfRun (add_l1 bl og) 3 := by
  refine ⟨?_, ?_, ?_⟩
  · rintro og ⟨qin, qout, qnd, qsub⟩
    obtain ⟨s1, s2, s3, s4⟩ :=
      add_l1_widths bl og qnd qsub hbinnd hboutnd hbdisj hboutsub
    rw [qout] at s1 s2
    rw [if_neg (by omega : ¬(3 : ℕ) > 3), hbin] at s1 s2
    refine ⟨?_, ?_, s3, s4⟩
    · rw [s1, qin]
      decide
    · rw [s2, hbout]
      decide
  · rintro og ⟨qin, qout, qnd, qsub⟩
    obtain ⟨s1, s2, s3, s4⟩ :=
      add_l0_widths bl og qnd qsub hbinnd hboutnd hbdisj hboutsub
    rw [qout] at s1 s2
    rw [if_pos (rfl : (3 : ℕ) = 3), hbin] at s1 s2
    refine ⟨?_, ?_, s3, s4⟩
    · rw [s1, qin]
      decide
    · rw [s2, hbout]
      decide
  · rintro og ⟨qin, qout, qnd, qsub⟩
    obtain ⟨s1, s2, s3, s4⟩ :=
      add_l1_widths bl og qnd qsub hbinnd hboutnd hbdisj hboutsub
    rw [qout] at s1 s2
    rw [if_neg (by omega : ¬(2 : ℕ) > 3), hbin] at s1 s2
    refine ⟨?_, ?_, s3, s4⟩
    · rw [s1, qin]
      decide
    · rw [s2, hbout]
      decide

/-- C6: for a minimal block with 2 inputs and 2 outputs (well-formed: node
identifiers are distinct and below the node count, boundaries are
duplicate-free, mutually disjoint and contained in the node list), the grid
composition with `rows ≥ 1` and `layers ≥ 1` succeeds and returns an open
graph whose input- and output-boundary lengths are both 3 when `rows = 1`
and `layers > 1`, and both `2 * rows` otherwise. -/
theorem grid_boundary_width (og : OpenGraph) (rows layers : ℕ)
    (hr : 1 ≤ rows) (hl : 1 ≤ layers)
    (hin2 : og.inputs.length = 2) (hout2 : og.outputs.length = 2)
    (hio : (og.inputs ++ og.outputs).Nodup)
    (hsubin : ∀ v ∈ og.inputs, v ∈ og.nodes)
    (hsubout : ∀ v ∈ og.outputs, v ∈ og.nodes)
    (hnodes : og.nodes.Nodup)
    (hbound : ∀ v ∈ og.nodes, v < og.nodes.length) :
    ∃ g, get_grid_composition og rows layers = Except.ok g
      ∧ g.inputs.length = (if rows = 1 ∧ 2 ≤ layers then 3 else 2 * rows)
      ∧ g.outputs.length = (if rows = 1 ∧ 2 ≤ layers then 3 else 2 * rows) := by
  have hok : get_grid_composition og rows layers
      = Except.ok (gridCore og rows layers) := by
    unfold get_grid_composition
    rw [if_neg (by omega : ¬((layers : ℤ) < 1)),
      if_neg (by omega : ¬((rows : ℤ) < 1)), Int.toNat_natCast, Int.toNat_natCast]
  refine ⟨gridCore og rows layers, hok, ?_⟩
  have hinnd : og.inputs.Nodup := hio.of_append_left
  have houtnd : og.outputs.Nodup := hio.of_append_right
  have hdisj0 := List.disjoint_of_nodup_append hio
  have hdisj : ∀ v ∈ og.outputs, v ∉ og.inputs := fun v hv hvin => hdisj0 hvin hv
  obtain ⟨a, b, hab⟩ := List.length_eq_two.mp hin2
  obtain ⟨c, d, hcd⟩ := List.length_eq_two.mp hout2
  have hwf : WfParallel og og.nodes.length :=
    ⟨hnodes, hbound, hinnd, houtnd, hdisj, hsubin, hsubout⟩
  have hcore : gridCore og rows layers
      = gridLoop (get_layers og rows).1 (get_layers og rows).2 (layers - 1) true
          (get_layers og rows).1 := rfl
  by_cases hr1 : rows = 1
  · subst hr1
    have hgl : get_layers og 1 = (og, og) := rfl
    by_cases hl2 : 2 ≤ layers
    · rw [if_pos ⟨rfl, hl2⟩]
      obtain ⟨j, hj⟩ : ∃ j, layers - 1 = j + 1 := ⟨layers - 2, by omega⟩
      have htp := add_preserves_three og hin2 hout2 hinnd houtnd hdisj hsubout
      have hwf2 : WfRun og 2 := ⟨hin2, hout2, houtnd, hsubout⟩
      have hstep1 : WfRun (add_l1 og og) 3 := htp.2.2 og hwf2
      have hfinal : WfRun (gridLoop og og j false (add_l1 og og)) 3 :=
        gridLoop_preserves og og 3 htp.1 htp.2.1 j false _ hstep1
      have hloop : gridCore og 1 layers
          = gridLoop og og j false (add_l1 og og) := by
        rw [hcore, hgl, hj]
        rfl
      rw [hloop]
      exact ⟨hfinal.1, hfinal.2.1⟩
    · have hl1 : layers = 1 := by omega
      subst hl1
      rw [if_neg (by omega)]
      have : gridCore og 1 1 = og := by
        rw [hcore, hgl]
        rfl
      rw [this]
      omega
  · rw [if_neg (by simp [hr1])]
    have hr2 : 2 ≤ rows := by omega
    obtain ⟨r1, r2, r3, r4, r5, r6⟩ :=
      getLayersGo_spec og hab hcd hio hsubin hsubout hnodes (rows - 1) og og
        hwf hwf
    obtain ⟨_, _, l0innd, l0outnd, l0disj, l0insub, l0outsub⟩ := r1
    obtain ⟨_, _, l1innd, l1outnd, l1disj, l1insub, l1outsub⟩ := r2
    have hl0in : (getLayersGo og (rows - 1) og og).1.inputs.length = 2 * rows := by
      rw [r3, hin2]
      omega
    have hl0out : (getLayersGo og (rows - 1) og og).1.outputs.length = 2 * rows := by
      rw [r4, hout2]
      omega
    have hl1in : (getLayersGo og (rows - 1) og og).2.inputs.length
        = 2 * rows - 2 := by
      rw [r5, hin2]
      omega
    have hl1out : (getLayersGo og (rows - 1) og og).2.outputs.length
        = 2 * rows - 2 := by
      rw [r6, hout2]
      omega
    have hpres := add_preserves_big (getLayersGo og (rows - 1) og og).1
      (getLayersGo og (rows - 1) og og).2 (2 * rows) (by omega)
      hl0in hl0out l0innd l0outnd l0disj l0outsub
      hl1in hl1out l1innd l1outnd l1disj l1outsub
    have hwf0 : WfRun (getLayersGo og (rows - 1) og og).1 (2 * rows) :=
      ⟨hl0in, hl0out, l0outnd, l0outsub⟩
    have hfinal := gridLoop_preserves (getLayersGo og (rows - 1) og og).1
      (getLayersGo og (rows - 1) og og).2 (2 * rows) hpres.1 hpres.2
      (layers - 1) true _ hwf0
    have hloop : gridCore og rows layers
        = gridLoop (getLayersGo og (rows - 1) og og).1
            (getLayersGo og (rows - 1) og og).2 (layers - 1) true
            (getLayersGo og (rows - 1) og og).1 := rfl
    rw [hloop]
    exact ⟨hfinal.1, hfinal.2.1⟩

/-- Witness for `grid_boundary_width` at `og = get_og_1`: a 2-row, 3-layer
grid has 4 inputs and 4 outputs, and a 1-row, 2-layer grid has 3 and 3. -/
theorem grid_boundary_width_witness :
    (∃ g, get_grid_composition get_og_1 2 3 = Except.ok g
      ∧ g.inputs.length = 4 ∧ g.outputs.length = 4)
    ∧ ∃ g, get_grid_composition get_og_1 1 2 = Except.ok g
      ∧ g.inputs.length = 3 ∧ g.outputs.length = 3 :=
  ⟨grid_boundary_width get_og_1 2 3 (by decide) (by decide) (by decide)
      (by decide) (by decide) (by decide) (by decide) (by decide) (by decide),
   grid_boundary_width get_og_1 1 2 (by decide) (by decide) (by decide)
      (by decide) (by decide) (by decide) (by decide) (by decide) (by decide)⟩

end OGGen
